import Mathlib

/-!
PocketSphinx decoder orchestration layer.

A shallow embedding of `src/libpocketsphinx/pocketsphinx.c` (the decoder
context, its utterance life cycle, search selection and vocabulary update)
and of the driver loops of `test/unit/test_acmod.c`, the latter over an acoustic
model written down from the specification.

The collaborators whose code lives outside these files (acoustic model,
dictionary, the search variants, the configuration library, the file system)
are parameters of the embedding: a record `Collab W` of transition functions
over a world state `W`.  Every call made to a collaborator is appended to a
trace, so that statements such as "no search step is made after the failing
call" can be written down.

Integers of fixed width are integers reduced on every store: the `int` counter
of the processing functions by `int_wrap`, the 32-bit unsigned fields of the
context by `uint_wrap` and `UINT_BITS`.
-/

namespace PocketSphinx

/-! ## Configuration (cmd_ln_t) -/

/-- Value of one configuration option. Floating point options are kept as codes. -/
inductive cmd_ln_val where
  | str (s : String)
  | int (i : Int)
  | bool (b : Bool)
  | flt (code : Int)
  deriving DecidableEq, Repr

/-- Configuration object: its address (pointer identity) and the options that hold a value. -/
structure cmd_ln_t where
  addr : Nat
  opts : List (String × cmd_ln_val)
  deriving DecidableEq, Repr

/-- String option lookup: `cmd_ln_str_r(config, name)`; `none` is the NULL string. -/
def cmd_ln_str_r (c : cmd_ln_t) (name : String) : Option String :=
  match c.opts.lookup name with
  | some (.str s) => some s
  | _ => none

/-- Boolean option lookup: `cmd_ln_boolean_r(config, name)`. -/
def cmd_ln_boolean_r (c : cmd_ln_t) (name : String) : Bool :=
  match c.opts.lookup name with
  | some (.bool b) => b
  | _ => false

/-- Float option lookup: `cmd_ln_float32_r(config, name)`, as a code. -/
def cmd_ln_float32_r (c : cmd_ln_t) (name : String) : Int :=
  match c.opts.lookup name with
  | some (.flt q) => q
  | _ => 0

/-- Integer option lookup: `cmd_ln_int32_r(config, name)`. -/
def cmd_ln_int32_r (c : cmd_ln_t) (name : String) : Int :=
  match c.opts.lookup name with
  | some (.int i) => i
  | _ => 0

/-- Replace the value bound to `name`, or bind it when it is not bound yet. -/
def setOpt (name : String) (v : cmd_ln_val) :
    List (String × cmd_ln_val) → List (String × cmd_ln_val)
  | [] => [(name, v)]
  | (k, w) :: rest => if k = name then (k, v) :: rest else (k, w) :: setOpt name v rest

/-- String option store: `cmd_ln_set_str_r(config, name, value)`. -/
def cmd_ln_set_str_r (c : cmd_ln_t) (name : String) (value : String) : cmd_ln_t :=
  { c with opts := setOpt name (.str value) c.opts }

/-! ## Decoder context (pocketsphinx_t) -/

/-- Decoder context. Pointers are `Option` values, `none` being NULL; the objects
they point to live in the world state of the collaborators. -/
structure pocketsphinx_t where
  /-- Configuration in use. -/
  config : Option cmd_ln_t
  /-- File names synthesized by `pocketsphinx_add_file` (most recent first). -/
  strings : List String
  /-- Log base of the logmath object. -/
  lmath : Option Int
  /-- Acoustic model. -/
  acmod : Option Nat
  /-- Dictionary. -/
  dict : Option Nat
  /-- Registry of searches (a glist: most recently added first). -/
  searches : List (Option Nat)
  /-- Active search. -/
  search : Option Nat
  /-- Utterance identifier. -/
  uttid : Option String
  /-- Utterance counter, an unsigned 32-bit integer. -/
  uttno : Nat
  /-- Cumulative count of searched frames, an unsigned 32-bit integer. -/
  n_frame : Int
  deriving DecidableEq, Repr

/-- The context right after `ckd_calloc(1, sizeof(*ps))`: every field zero. -/
def ps_calloc : pocketsphinx_t :=
  { config := none, strings := [], lmath := none, acmod := none, dict := none,
    searches := [], search := none, uttid := none, uttno := 0, n_frame := 0 }

/-- `pocketsphinx_add_file(ps, arg, hmmdir, file)`, given the file-existence test of
the file system. The caller has already read `-hmm` from `ps->config`, so the
configuration is present. -/
def pocketsphinx_add_file (file_exists : String → Bool) (ps : pocketsphinx_t)
    (arg hmmdir file : String) : Option pocketsphinx_t :=
  match ps.config with
  | none => none
  | some c =>
    let tmp := hmmdir ++ "/" ++ file
    if cmd_ln_str_r c arg = none && file_exists tmp then
      some { ps with config := some (cmd_ln_set_str_r c arg tmp), strings := tmp :: ps.strings }
    else
      some ps

/-- The nine (option, file name) pairs of `pocketsphinx_init_defaults`, in source order. -/
def artifacts : List (String × String) :=
  [("-mdef", "mdef"), ("-mean", "means"), ("-var", "variances"),
   ("-tmat", "transition_matrices"), ("-mixw", "mixture_weights"),
   ("-sendump", "sendump"), ("-kdtree", "kdtrees"), ("-fdict", "noisedict"),
   ("-featparams", "feat.params")]

/-- `pocketsphinx_init_defaults(ps)`; `none` is the fault of reading a NULL configuration. -/
def pocketsphinx_init_defaults (file_exists : String → Bool) (ps : pocketsphinx_t) :
    Option pocketsphinx_t :=
  match ps.config with
  | none => none
  | some c =>
    match cmd_ln_str_r c "-hmm" with
    | some hmmdir =>
      (pocketsphinx_add_file file_exists ps "-mdef" hmmdir "mdef").bind fun ps =>
      (pocketsphinx_add_file file_exists ps "-mean" hmmdir "means").bind fun ps =>
      (pocketsphinx_add_file file_exists ps "-var" hmmdir "variances").bind fun ps =>
      (pocketsphinx_add_file file_exists ps "-tmat" hmmdir "transition_matrices").bind fun ps =>
      (pocketsphinx_add_file file_exists ps "-mixw" hmmdir "mixture_weights").bind fun ps =>
      (pocketsphinx_add_file file_exists ps "-sendump" hmmdir "sendump").bind fun ps =>
      (pocketsphinx_add_file file_exists ps "-kdtree" hmmdir "kdtrees").bind fun ps =>
      (pocketsphinx_add_file file_exists ps "-fdict" hmmdir "noisedict").bind fun ps =>
      pocketsphinx_add_file file_exists ps "-featparams" hmmdir "feat.params"
    | none => some ps

/-- The calls of `pocketsphinx_init_defaults` as a walk over a list of
(option, file name) pairs. -/
def addAll (file_exists : String → Bool) (hmmdir : String) :
    List (String × String) → pocketsphinx_t → Option pocketsphinx_t
  | [], ps => some ps
  | p :: l, ps =>
    (pocketsphinx_add_file file_exists ps p.1 hmmdir p.2).bind (addAll file_exists hmmdir l)

/-! ## Collaborators, world state and call trace -/

/-- One call to a collaborator, with the value it returned. -/
inductive Call where
  | ptmr_init
  | ptmr_reset
  | ptmr_start
  | ptmr_stop
  | cmd_ln_free_r
  | logmath_init (base : Int)
  | logmath_free
  | acmod_init (r : Option Nat)
  | acmod_free (a : Option Nat)
  | acmod_set_grow (b : Bool)
  | acmod_start_utt (rv : Int)
  | acmod_process_raw (rv : Int)
  | acmod_process_cep (rv : Int)
  | acmod_end_utt (rv : Int)
  | dict_init (r : Option Nat)
  | dict_free (d : Option Nat)
  | dict_add_word (rv : Int)
  | fsg_search_init (r : Option Nat)
  | ngram_search_init (r : Option Nat)
  | ps_search_free (s : Nat)
  | ps_search_reinit (s : Nat) (rv : Int)
  | ps_search_start (s : Nat) (rv : Int)
  | ps_search_step (s : Nat) (rv : Int)
  | ps_search_finish (s : Nat) (rv : Int)
  | ngram_model_add_word (rv : Int)
  deriving DecidableEq, Repr

/-- The collaborators of the decoder context, as transition functions over a world
state `W` that holds the objects behind the pointers of `pocketsphinx_t`.
Audio samples and feature values are integers. -/
structure Collab (W : Type) where
  /-- Does `fopen(path, "rb")` succeed. -/
  file_exists : String → Bool
  /-- Build an acoustic model; `none` is NULL. -/
  acmod_init : W → Option cmd_ln_t → Option Nat × W
  /-- Release an acoustic model. -/
  acmod_free : W → Option Nat → W
  /-- Set the growth policy of the feature buffer. -/
  acmod_set_grow : W → Nat → Bool → W
  /-- Reset the utterance state of the acoustic model. -/
  acmod_start_utt : W → Nat → Int × W
  /-- Extract features from samples: frames extracted or a negative code, and the
  samples not consumed. The last argument is `full_utt`. -/
  acmod_process_raw : W → Nat → List Int → Bool → Int × List Int × W
  /-- Extract features from cepstral frames, same contract. -/
  acmod_process_cep : W → Nat → List (List Int) → Bool → Int × List (List Int) × W
  /-- Flush the acoustic model at the end of the utterance. -/
  acmod_end_utt : W → Nat → Int × W
  /-- The field `acmod->output_frame`. -/
  acmod_output_frame : W → Nat → Int
  /-- Build a dictionary from the configuration and the model definition of the acoustic model. -/
  dict_init : W → Option cmd_ln_t → Nat → Option Nat × W
  /-- Release a dictionary. -/
  dict_free : W → Option Nat → W
  /-- Add a word with its pronunciation: the word id, or -1. -/
  dict_add_word : W → Nat → String → String → Int × W
  /-- Build a grammar search; `none` is NULL. -/
  fsg_search_init : W → Option cmd_ln_t → Option Nat → Option Nat → Option Nat × W
  /-- Build a language-model search; `none` is NULL. -/
  ngram_search_init : W → Option cmd_ln_t → Option Nat → Option Nat → Option Nat × W
  /-- The name in the operation table of a search object. -/
  search_name : W → Nat → String
  /-- The operations of the table of a search object. -/
  search_free : W → Nat → W
  search_reinit : W → Nat → Int × W
  search_start : W → Nat → Int × W
  search_step : W → Nat → Int × W
  search_finish : W → Nat → Int × W
  /-- The field `lmset` of a language-model search. -/
  ngram_lmset : W → Nat → Option Nat
  /-- Add a word to a language-model set: its id there, or `NGRAM_INVALID_WID`. -/
  ngram_model_add_word : W → Nat → String → Int × W

/-- The constant of the language-model library for "no such word". -/
def NGRAM_INVALID_WID : Int := -1

/-- Machine state: the decoder context, the world of its collaborators, and the
trace of the collaborator calls made so far. -/
structure State (W : Type) where
  ps : pocketsphinx_t
  world : W
  trace : List Call
  deriving DecidableEq

/-- Outcome of running a function of the decoder. -/
inductive Res (W : Type) (α : Type) where
  /-- The function returned `a`, leaving state `s`. -/
  | ret (a : α) (s : State W)
  /-- A NULL pointer was dereferenced; `s` holds the stores made before that. -/
  | fault (s : State W)
  /-- The loop bound of the embedding was exhausted. -/
  | nofuel
  deriving DecidableEq

/-- Sequencing: continue with `f` when the first outcome returned. -/
def Res.bind {W α β : Type} (r : Res W α) (f : α → State W → Res W β) : Res W β :=
  match r with
  | .ret a s => f a s
  | .fault s => .fault s
  | .nofuel => .nofuel

/-- Replace the decoder context of a state. -/
def State.setPs {W : Type} (st : State W) (ps : pocketsphinx_t) : State W :=
  { st with ps := ps }

/-- Replace the world of a state. -/
def State.setWorld {W : Type} (st : State W) (w : W) : State W :=
  { st with world := w }

/-- Record a call in the trace. -/
def State.log {W : Type} (st : State W) (c : Call) : State W :=
  { st with trace := st.trace ++ [c] }

/-- State reached by an outcome, when there is one. -/
def Res.state {W α : Type} : Res W α → Option (State W)
  | .ret _ s => some s
  | .fault s => some s
  | .nofuel => none

/-- Value returned by an outcome, when it returned. -/
def Res.value {W α : Type} : Res W α → Option α
  | .ret a _ => some a
  | _ => none

/-! ## Calls through pointers held by the context

The dispatch forms `ps_search_start(s)`, `ps_search_step(s)`, ... of
`pocketsphinx_internal.h` read the operation table of the search object `s`,
and the functions of the acoustic model and of the dictionary read the object
they are given: a NULL pointer there is a fault. -/

section calls
variable {W : Type} (E : Collab W)

/-- Dispatch form `ps_search_name(s)`, for a pointer that is not NULL. -/
def ps_search_name (st : State W) (s : Nat) : String :=
  E.search_name st.world s

/-- Dispatch form `ps_search_free(s)`. -/
def ps_search_free (st : State W) (s : Option Nat) : Res W Unit :=
  match s with
  | none => .fault st
  | some a => .ret () ({ st with world := E.search_free st.world a }.log (.ps_search_free a))

/-- Dispatch form `ps_search_reinit(s)`. -/
def ps_search_reinit (st : State W) (s : Option Nat) : Res W Int :=
  match s with
  | none => .fault st
  | some a =>
    let r := E.search_reinit st.world a
    .ret r.1 ({ st with world := r.2 }.log (.ps_search_reinit a r.1))

/-- Dispatch form `ps_search_start(s)`. -/
def ps_search_start (st : State W) (s : Option Nat) : Res W Int :=
  match s with
  | none => .fault st
  | some a =>
    let r := E.search_start st.world a
    .ret r.1 ({ st with world := r.2 }.log (.ps_search_start a r.1))

/-- Dispatch form `ps_search_step(s)`. -/
def ps_search_step (st : State W) (s : Option Nat) : Res W Int :=
  match s with
  | none => .fault st
  | some a =>
    let r := E.search_step st.world a
    .ret r.1 ({ st with world := r.2 }.log (.ps_search_step a r.1))

/-- Dispatch form `ps_search_finish(s)`. -/
def ps_search_finish (st : State W) (s : Option Nat) : Res W Int :=
  match s with
  | none => .fault st
  | some a =>
    let r := E.search_finish st.world a
    .ret r.1 ({ st with world := r.2 }.log (.ps_search_finish a r.1))

/-- Call `acmod_set_grow(ps->acmod, b)`. -/
def acmod_set_grow (st : State W) (b : Bool) : Res W Unit :=
  match st.ps.acmod with
  | none => .fault st
  | some a => .ret () ({ st with world := E.acmod_set_grow st.world a b }.log (.acmod_set_grow b))

/-- Call `acmod_start_utt(ps->acmod)`. -/
def acmod_start_utt (st : State W) : Res W Int :=
  match st.ps.acmod with
  | none => .fault st
  | some a =>
    let r := E.acmod_start_utt st.world a
    .ret r.1 ({ st with world := r.2 }.log (.acmod_start_utt r.1))

/-- Call `acmod_process_raw(ps->acmod, &data, &n_samples, full_utt)`: the value
returned and the samples left in `data`. -/
def acmod_process_raw (st : State W) (data : List Int) (full_utt : Bool) :
    Res W (Int × List Int) :=
  match st.ps.acmod with
  | none => .fault st
  | some a =>
    let r := E.acmod_process_raw st.world a data full_utt
    .ret (r.1, r.2.1) ({ st with world := r.2.2 }.log (.acmod_process_raw r.1))

/-- Call `acmod_process_cep(ps->acmod, &data, &n_frames, full_utt)`. -/
def acmod_process_cep (st : State W) (data : List (List Int)) (full_utt : Bool) :
    Res W (Int × List (List Int)) :=
  match st.ps.acmod with
  | none => .fault st
  | some a =>
    let r := E.acmod_process_cep st.world a data full_utt
    .ret (r.1, r.2.1) ({ st with world := r.2.2 }.log (.acmod_process_cep r.1))

/-- Call `acmod_end_utt(ps->acmod)`. -/
def acmod_end_utt (st : State W) : Res W Int :=
  match st.ps.acmod with
  | none => .fault st
  | some a =>
    let r := E.acmod_end_utt st.world a
    .ret r.1 ({ st with world := r.2 }.log (.acmod_end_utt r.1))

/-- Call `dict_add_word(ps->dict, word, pron)`. -/
def dict_add_word (st : State W) (word pron : String) : Res W Int :=
  match st.ps.dict with
  | none => .fault st
  | some d =>
    let r := E.dict_add_word st.world d word pron
    .ret r.1 ({ st with world := r.2 }.log (.dict_add_word r.1))

/-- Call `ngram_model_add_word(lmset, word, 1.0)` on a language-model set that is not NULL. -/
def ngram_model_add_word (st : State W) (lmset : Nat) (word : String) : Res W Int :=
  let r := E.ngram_model_add_word st.world lmset word
  .ret r.1 ({ st with world := r.2 }.log (.ngram_model_add_word r.1))

/-- The loop `for (gn = ps->searches; gn; gn = gnode_next(gn)) ps_search_free(gnode_ptr(gn));`. -/
def free_searches : State W → List (Option Nat) → Res W Unit
  | st, [] => .ret () st
  | st, s :: rest => (ps_search_free E st s).bind fun _ st1 => free_searches st1 rest

end calls

/-! ## Construction and reconfiguration -/

section decoder
variable {W : Type} (E : Collab W)

/-- `pocketsphinx_free(ps)`: releases everything the context owns. -/
def pocketsphinx_free (st : State W) : Res W Unit :=
  (free_searches E st st.ps.searches).bind fun _ st1 =>
    let st2 := (st1.setWorld (E.dict_free st1.world st1.ps.dict)).log (.dict_free st1.ps.dict)
    let st3 := (st2.setWorld (E.acmod_free st2.world st2.ps.acmod)).log (.acmod_free st2.ps.acmod)
    .ret () ((st3.log .logmath_free).log .cmd_ln_free_r)

/-- Last part of `pocketsphinx_reinit`: the searches are released and the one the
configuration names is built. `cfg` is the configuration object. -/
def reinit_searches (st : State W) (cfg : cmd_ln_t) : Res W Int :=
  /- if (ps->searches) { free each; glist_free; searches = NULL; search = NULL; } -/
  (if st.ps.searches ≠ [] then
      (free_searches E st st.ps.searches).bind fun _ st1 =>
        .ret () (st1.setPs { st1.ps with searches := [], search := none })
    else .ret () st).bind fun _ st1 =>
  let st2 : State W :=
    if (cmd_ln_str_r cfg "-fsg").isSome then
      let r := E.fsg_search_init st1.world (some cfg) st1.ps.acmod st1.ps.dict
      ((st1.setWorld r.2).log (.fsg_search_init r.1)).setPs
        { st1.ps with searches := r.1 :: st1.ps.searches, search := r.1 }
    else if (cmd_ln_str_r cfg "-lm").isSome || (cmd_ln_str_r cfg "-lmctlfn").isSome then
      let r := E.ngram_search_init st1.world (some cfg) st1.ps.acmod st1.ps.dict
      ((st1.setWorld r.2).log (.ngram_search_init r.1)).setPs
        { st1.ps with searches := r.1 :: st1.ps.searches, search := r.1 }
    else st1
  .ret 0 (st2.log .ptmr_init)

/-- Block "Logmath computation" of `pocketsphinx_reinit`: the logmath object is
rebuilt when there is none or when its base differs from `-logbase`. -/
def reinit_logmath (st : State W) (cfg : cmd_ln_t) : State W :=
  let base := cmd_ln_float32_r cfg "-logbase"
  if st.ps.lmath = none ∨ st.ps.lmath ≠ some base then
    let st0 := if st.ps.lmath.isSome then st.log .logmath_free else st
    (st0.log (.logmath_init base)).setPs { st0.ps with lmath := some base }
  else st

/-- Block "Acoustic model" of `pocketsphinx_reinit`, up to the assignment of
`ps->acmod`: the old model is released and a new one is built. -/
def reinit_acmod (st : State W) (cfg : cmd_ln_t) : State W :=
  let st2 : State W :=
    if st.ps.acmod.isSome then
      (st.setWorld (E.acmod_free st.world st.ps.acmod)).log (.acmod_free st.ps.acmod)
    else st
  let ra := E.acmod_init st2.world (some cfg)
  ((st2.setWorld ra.2).log (.acmod_init ra.1)).setPs { st2.ps with acmod := ra.1 }

/-- The statement `if (fwdflat && fwdtree) acmod_set_grow(ps->acmod, TRUE);` of
`pocketsphinx_reinit`, for the acoustic model `a` just built. -/
def reinit_grow (st : State W) (cfg : cmd_ln_t) (a : Nat) : State W :=
  if cmd_ln_boolean_r cfg "-fwdflat" && cmd_ln_boolean_r cfg "-fwdtree" then
    (st.setWorld (E.acmod_set_grow st.world a true)).log (.acmod_set_grow true)
  else st

/-- Block "Dictionary and triphone mappings" of `pocketsphinx_reinit`, up to the
assignment of `ps->dict`; `a` is the acoustic model whose `mdef` is read. -/
def reinit_dict (st : State W) (cfg : cmd_ln_t) (a : Nat) : State W :=
  let st5 : State W :=
    if st.ps.dict.isSome then
      (st.setWorld (E.dict_free st.world st.ps.dict)).log (.dict_free st.ps.dict)
    else st
  let rd := E.dict_init st5.world (some cfg) a
  ((st5.setWorld rd.2).log (.dict_init rd.1)).setPs { st5.ps with dict := rd.1 }

/-- Middle part of `pocketsphinx_reinit`: logmath, acoustic model and dictionary,
then the searches. `cfg` is the object behind the non-NULL argument `config`. -/
def reinit_models (st : State W) (cfg : cmd_ln_t) : Res W Int :=
  let st3 := reinit_acmod E (reinit_logmath st cfg) cfg
  match st3.ps.acmod with
  | none => .ret (-1) st3
  | some a =>
    let st6 := reinit_dict E (reinit_grow E st3 cfg a) cfg a
    match st6.ps.dict with
    | none => .ret (-1) st6
    | some _ => reinit_searches E st6 cfg

/-- `pocketsphinx_reinit(ps, config)`. The strings released by `ckd_free` are values
here, so that loop leaves no mark. After the first block a non-NULL `config` is the
object at `ps->config`; a NULL `config` faults at its first read, `-logbase`. -/
def pocketsphinx_reinit (st : State W) (config : Option cmd_ln_t) : Res W Int :=
  let st1 : State W :=
    match config with
    | some c =>
      if st.ps.config.map (fun o => o.addr) ≠ some c.addr then
        let st0 := if st.ps.config.isSome then st.log .cmd_ln_free_r else st
        st0.setPs { st0.ps with config := some c }
      else st
    | none => st
  match pocketsphinx_init_defaults E.file_exists st1.ps with
  | none => .fault st1
  | some ps2 =>
    match config, ps2.config with
    | some _, some cfg => reinit_models E (st1.setPs ps2) cfg
    | _, _ => .fault (st1.setPs ps2)

/-- `pocketsphinx_init(config)` in world `w`: `true` when a context is returned,
`false` for NULL. -/
def pocketsphinx_init (w : W) (config : Option cmd_ln_t) : Res W Bool :=
  (pocketsphinx_reinit E { ps := ps_calloc, world := w, trace := [] } config).bind fun rv st =>
    if rv < 0 then (pocketsphinx_free E st).bind fun _ st1 => .ret false st1
    else .ret true st

/-! ## Search selection -/

/-- Result of walking the registry for a search of a given name. -/
inductive Lookup where
  /-- The walk stopped at this search. -/
  | found (s : Nat)
  /-- The walk reached the end of the list. -/
  | absent
  /-- The walk read the name of a NULL entry. -/
  | null_entry
  deriving DecidableEq, Repr

/-- The loop `for (gn = ps->searches; gn; gn = gnode_next(gn))
if (0 == strcmp(ps_search_name(gnode_ptr(gn)), kind)) break;`. -/
def find_search (st : State W) (kind : String) : List (Option Nat) → Lookup
  | [] => .absent
  | none :: _ => .null_entry
  | some a :: rest => if ps_search_name E st a = kind then .found a else find_search st kind rest

/-- `pocketsphinx_get_lmset(ps)`: the language-model set of the active search, when
that search is the language-model one. -/
def pocketsphinx_get_lmset (st : State W) : Option Nat :=
  match st.ps.search with
  | none => none
  | some a => if ps_search_name E st a ≠ "ngram" then none else E.ngram_lmset st.world a

/-- `pocketsphinx_get_fsgset(ps)`: the active search, when it is the grammar one. -/
def pocketsphinx_get_fsgset (st : State W) : Option Nat :=
  match st.ps.search with
  | none => none
  | some a => if ps_search_name E st a ≠ "fsg" then none else some a

/-- `pocketsphinx_update_lmset(ps)`: the language-model set of the search made
active, or NULL. -/
def pocketsphinx_update_lmset (st : State W) : Res W (Option Nat) :=
  match find_search E st "ngram" st.ps.searches with
  | .null_entry => .fault st
  | .absent =>
    let r := E.ngram_search_init st.world st.ps.config st.ps.acmod st.ps.dict
    let st1 := (st.setWorld r.2).log (.ngram_search_init r.1)
    match r.1 with
    | none => .ret none st1
    | some ngs =>
      let st2 := st1.setPs { st1.ps with searches := some ngs :: st1.ps.searches }
      .ret (E.ngram_lmset st2.world ngs) (st2.setPs { st2.ps with search := some ngs })
  | .found ngs =>
    (ps_search_reinit E st (some ngs)).bind fun rv st1 =>
      if rv < 0 then .ret none st1
      else .ret (E.ngram_lmset st1.world ngs) (st1.setPs { st1.ps with search := some ngs })

/-- `pocketsphinx_update_fsgset(ps)`: the search made active (a grammar search is
its own grammar set), or NULL. -/
def pocketsphinx_update_fsgset (st : State W) : Res W (Option Nat) :=
  match find_search E st "fsg" st.ps.searches with
  | .null_entry => .fault st
  | .absent =>
    let r := E.fsg_search_init st.world st.ps.config st.ps.acmod st.ps.dict
    let st1 := (st.setWorld r.2).log (.fsg_search_init r.1)
    let st2 := st1.setPs { st1.ps with searches := r.1 :: st1.ps.searches }
    .ret r.1 (st2.setPs { st2.ps with search := r.1 })
  | .found fsgs =>
    (ps_search_reinit E st (some fsgs)).bind fun rv st1 =>
      if rv < 0 then .ret none st1
      else .ret (some fsgs) (st1.setPs { st1.ps with search := some fsgs })

/-! ## Vocabulary update -/

/-- `pocketsphinx_add_word(ps, word, phones, update)`. In the source the result of
the reinitialization is stored as `rv = ps_search_reinit(ps->search) < 0`, that is,
`rv` is the truth value of the comparison. -/
def pocketsphinx_add_word (st : State W) (word phones : String) (update : Bool) : Res W Int :=
  (dict_add_word E st word phones).bind fun wid st1 =>
    if wid = -1 then .ret (-1) st1
    else
      (match pocketsphinx_get_lmset E st1 with
        | some lmset =>
          (ngram_model_add_word E st1 lmset word).bind fun lmwid st2 =>
            .ret (decide (lmwid = NGRAM_INVALID_WID)) st2
        | none => .ret false st1).bind fun invalid st2 =>
      if invalid then .ret (-1) st2
      else if update then
        (ps_search_reinit E st2 st2.ps.search).bind fun r st3 =>
          let rv : Int := if r < 0 then 1 else 0
          if rv ≠ 0 then .ret rv st3 else .ret wid st3
      else .ret wid st2

/-! ## Utterance life cycle -/

/-- Width of `unsigned int`, the type of the utterance counter printed with `%09u`. -/
def UINT_BITS : Nat := 32

/-- The text written by `sprintf(nuttid, "%09u", n)`: the decimal digits of `n`,
padded with zeros on the left to a width of 9. -/
def sprintf_09u (n : Nat) : String :=
  String.mk (List.leftpad 9 '0' (Nat.toDigits 10 n))

/-- `pocketsphinx_start_utt(ps, uttid)`. -/
def pocketsphinx_start_utt (st : State W) (uttid : Option String) : Res W Int :=
  let st0 := (st.log .ptmr_reset).log .ptmr_start
  let st1 : State W :=
    match uttid with
    | some u => st0.setPs { st0.ps with uttid := some u }
    | none =>
      st0.setPs { st0.ps with uttid := some (sprintf_09u st0.ps.uttno),
                              uttno := (st0.ps.uttno + 1) % 2 ^ UINT_BITS }
  (acmod_start_utt E st1).bind fun rv st2 =>
    if rv < 0 then .ret rv st2
    else ps_search_start E st2 st2.ps.search

/-- The value a C `int` (32 bits, two's complement) holds after the integer `x` is
stored in it: a value out of range wraps around. -/
def int_wrap (x : Int) : Int :=
  (x + 2147483648) % 4294967296 - 2147483648

/-- The value a 32-bit unsigned field holds after the integer `x` is stored in it. -/
def uint_wrap (x : Int) : Int :=
  x % 4294967296

/-- The loop `while ((nfr = ps_search_step(ps->search)) > 0) n_searchfr += nfr;` of
`pocketsphinx_process_raw` and `pocketsphinx_process_cep`: the last `nfr` and the
new `n_searchfr`. The counter is declared `int n_searchfr`, so each addition is
stored in 32 bits. -/
def search_loop : Nat → State W → Int → Res W (Int × Int)
  | 0, _, _ => .nofuel
  | fuel + 1, st, n_searchfr =>
    (ps_search_step E st st.ps.search).bind fun nfr st1 =>
      if nfr > 0 then search_loop fuel st1 (int_wrap (n_searchfr + nfr))
      else .ret (nfr, n_searchfr) st1

/-- The loop `while (n_samples)` of `pocketsphinx_process_raw`, which is also the
loop `while (n_frames)` of `pocketsphinx_process_cep`, with the two statements that
follow it. `extract` is the extraction call of the function at hand; `data` holds
the input not consumed yet and `n_searchfr` is the local counter. The statement
`ps->n_frame += n_searchfr` stores into the 32-bit unsigned field. -/
def process_loop {D : Type} (extract : State W → List D → Bool → Res W (Int × List D))
    (no_search full_utt : Bool) : Nat → State W → List D → Int → Res W Int
  | 0, _, _, _ => .nofuel
  | fuel + 1, st, data, n_searchfr =>
    if data.length = 0 then
      .ret n_searchfr
        (st.setPs { st.ps with n_frame := uint_wrap (st.ps.n_frame + n_searchfr) })
    else
      (extract st data full_utt).bind fun r st1 =>
        if r.1 < 0 then .ret r.1 st1
        else if !no_search then
          (search_loop E fuel st1 n_searchfr).bind fun q st2 =>
            if q.1 < 0 then .ret q.1 st2
            else process_loop extract no_search full_utt fuel st2 r.2 q.2
        else process_loop extract no_search full_utt fuel st1 r.2 n_searchfr

/-- `pocketsphinx_process_raw(ps, data, n_samples, no_search, full_utt)`; `data`
holds the `n_samples` samples. -/
def pocketsphinx_process_raw (fuel : Nat) (st : State W) (data : List Int)
    (no_search full_utt : Bool) : Res W Int :=
  (if no_search then acmod_set_grow E st true else .ret () st).bind fun _ st1 =>
    process_loop E (acmod_process_raw E) no_search full_utt fuel st1 data 0

/-- `pocketsphinx_process_cep(ps, data, n_frames, no_search, full_utt)`; `data`
holds the `n_frames` frames. -/
def pocketsphinx_process_cep (fuel : Nat) (st : State W) (data : List (List Int))
    (no_search full_utt : Bool) : Res W Int :=
  (if no_search then acmod_set_grow E st true else .ret () st).bind fun _ st1 =>
    process_loop E (acmod_process_cep E) no_search full_utt fuel st1 data 0

/-- The loop `while ((rv = ps_search_step(ps->search)) > 0) { }` of
`pocketsphinx_end_utt`: the last `rv`. -/
def end_utt_loop : Nat → State W → Res W Int
  | 0, _ => .nofuel
  | fuel + 1, st =>
    (ps_search_step E st st.ps.search).bind fun rv st1 =>
      if rv > 0 then end_utt_loop fuel st1 else .ret rv st1

/-- `pocketsphinx_end_utt(ps)`. The value of `acmod_end_utt` is not read. -/
def pocketsphinx_end_utt (fuel : Nat) (st : State W) : Res W Int :=
  (acmod_end_utt E st).bind fun _ st1 =>
    (end_utt_loop E fuel st1).bind fun rv st2 =>
      if rv < 0 then .ret rv (st2.log .ptmr_stop)
      else
        (ps_search_finish E st2 st2.ps.search).bind fun rv st3 =>
          .ret rv (st3.log .ptmr_stop)

/-- Frame count that `pocketsphinx_get_utt_time` divides by the frame rate:
`ps->acmod->output_frame`. -/
def pocketsphinx_get_utt_time (st : State W) : Option Int :=
  st.ps.acmod.map fun a => E.acmod_output_frame st.world a

/-- Frame count that `pocketsphinx_get_all_time` divides by the frame rate:
`ps->n_frame`. -/
def pocketsphinx_get_all_time (st : State W) : Int :=
  st.ps.n_frame

end decoder

/-- Number written by a string of decimal digits. -/
def decimalValue (s : String) : Nat :=
  s.data.foldl (fun acc c => 10 * acc + (c.toNat - 48)) 0

/-- The outcome leaves a state, and its context is `p`. -/
def Res.leavesPs {W α : Type} (r : Res W α) (p : pocketsphinx_t) : Prop :=
  ∃ st', r.state = some st' ∧ st'.ps = p

/-! ## Reading a trace -/

/-- Code returned by an extraction call or a search step. -/
def Call.code : Call → Option Int
  | .acmod_process_raw rv => some rv
  | .acmod_process_cep rv => some rv
  | .ps_search_step _ rv => some rv
  | _ => none

/-- Value returned by a search step. -/
def Call.stepCode : Call → Option Int
  | .ps_search_step _ rv => some rv
  | _ => none

/-- Sum of the positive values returned by the search steps of a trace. -/
def posStepSum (tr : List Call) : Int :=
  ((tr.filterMap Call.stepCode).filter (fun v => 0 < v)).sum

/-- No extraction call and no search step of the trace returned a negative code. -/
def noNegative (tr : List Call) : Prop :=
  ∀ c ∈ tr, ∀ v, c.code = some v → 0 ≤ v

/-- What a run of the processing loop leaves behind: the calls `tr` it made, the
value `rv` it returned and the context `p'` it left, from counter value `acc` and
context `p`. Either no call returned a negative code, the value is the counter plus
the positive step values as a 32-bit `int`, and the frame count of the context
grew by it; or the last call returned the negative value `rv`, no call before it
did, and the context is as it was. -/
def LoopOutcome (p : pocketsphinx_t) (acc rv : Int) (tr : List Call)
    (p' : pocketsphinx_t) : Prop :=
  (∀ c ∈ tr, c.code ≠ none) ∧
  ((noNegative tr ∧ rv = int_wrap (acc + posStepSum tr) ∧
      p' = { p with n_frame := uint_wrap (p.n_frame + rv) }) ∨
   (∃ pre last, tr = pre ++ [last] ∧ last.code = some rv ∧ rv < 0 ∧ noNegative pre ∧ p' = p))

/-- An extraction call that, whenever it returns, has left the context alone and
logged one call, which carries the value returned and is no search step. -/
def ExtractLogs {W D : Type} (extract : State W → List D → Bool → Res W (Int × List D)) :
    Prop :=
  ∀ (st : State W) (data : List D) (full : Bool) (r : Int × List D) (st1 : State W),
    extract st data full = .ret r st1 →
    st1.ps = st.ps ∧ ∃ c : Call, st1.trace = st.trace ++ [c] ∧ c.code = some r.1 ∧
      c.stepCode = none

/-- An extraction call that, on the context `p` and in a world where `drained`
holds, returns, leaves the context alone, and consumes input whenever it succeeds. -/
def ExtractOk {W D : Type} (extract : State W → List D → Bool → Res W (Int × List D))
    (p : pocketsphinx_t) (drained : W → Prop) : Prop :=
  ∀ (st : State W) (data : List D) (full : Bool), st.ps = p → drained st.world → data ≠ [] →
    ∃ (rv : Int) (rest : List D) (st1 : State W),
      extract st data full = .ret (rv, rest) st1 ∧ st1.ps = p ∧
      (0 ≤ rv → rest.length < data.length)

/-- The collaborators make progress: a search step that advances decreases the
measure `μ`; a search step that reports no progress leaves the feature buffer
`drained`; and on a drained buffer a successful extraction from a non-empty input
consumes some of it. -/
def Progress {W : Type} (E : Collab W) (μ : W → Nat) (drained : W → Prop) : Prop :=
  (∀ w a, 0 < (E.search_step w a).1 → μ (E.search_step w a).2 < μ w) ∧
  (∀ w a, (E.search_step w a).1 = 0 → drained (E.search_step w a).2) ∧
  (∀ w m data full, drained w → data ≠ [] → 0 ≤ (E.acmod_process_raw w m data full).1 →
    (E.acmod_process_raw w m data full).2.1.length < data.length) ∧
  (∀ w m data full, drained w → data ≠ [] → 0 ≤ (E.acmod_process_cep w m data full).1 →
    (E.acmod_process_cep w m data full).2.1.length < data.length)

/-! ## A small concrete world, for running the embedding on examples -/

/-- World of the example collaborators. -/
structure Toy where
  /-- Frames extracted and not searched yet. -/
  pending : Nat
  /-- Frames scored in the current utterance (`output_frame`). -/
  output_frame : Int
  /-- Live search objects: address and name. -/
  objs : List (Nat × String)
  /-- Next free address. -/
  next : Nat
  /-- Number of dictionary words. -/
  words : Nat
  /-- Does building a grammar search succeed. -/
  fsg_ok : Bool
  /-- Does building a language-model search succeed. -/
  ngram_ok : Bool
  /-- Value returned by `acmod_start_utt`. -/
  start_rv : Int
  /-- Value returned by `acmod_end_utt`. -/
  flush_rv : Int
  /-- Value returned by the reinit operation of a search. -/
  reinit_rv : Int
  /-- Value returned by the finish operation of a search. -/
  finish_rv : Int
  /-- Does a search step with no frame to search report an error. -/
  step_fails : Bool
  deriving DecidableEq, Repr

/-- A world with no object in it, where every operation succeeds. -/
def Toy.fresh : Toy :=
  { pending := 0, output_frame := 0, objs := [], next := 10, words := 0, fsg_ok := true,
    ngram_ok := true, start_rv := 0, flush_rv := 0, reinit_rv := 0, finish_rv := 0,
    step_fails := false }

/-- Example collaborators. Every sample is one frame; an extraction call takes at
most two samples (all of them for a whole utterance) and rejects a negative first
sample with that value; the flush at the end of the utterance releases one more
frame; a search step searches one pending frame. -/
def toy : Collab Toy where
  file_exists := fun path => path = "hmm/mdef" || path = "hmm/means"
  acmod_init := fun w _ => (some 1, w)
  acmod_free := fun w _ => w
  acmod_set_grow := fun w _ _ => w
  acmod_start_utt := fun w _ => (w.start_rv, { w with pending := 0, output_frame := 0 })
  acmod_process_raw := fun w _ data full =>
    match data with
    | [] => (0, [], w)
    | x :: rest =>
      if x < 0 then (x, x :: rest, w)
      else if full then
        (((x :: rest).length : Int), [], { w with pending := w.pending + (x :: rest).length })
      else
        (((x :: rest).take 2).length, (x :: rest).drop 2,
          { w with pending := w.pending + ((x :: rest).take 2).length })
  acmod_process_cep := fun w _ data _ =>
    match data with
    | [] => (0, [], w)
    | _ :: rest => (1, rest, { w with pending := w.pending + 1 })
  acmod_end_utt := fun w _ => (w.flush_rv, { w with pending := w.pending + 1 })
  acmod_output_frame := fun w _ => w.output_frame
  dict_init := fun w _ _ => (some 2, w)
  dict_free := fun w _ => w
  dict_add_word := fun w _ _ pron =>
    if pron = "" then (-1, w) else ((w.words : Int), { w with words := w.words + 1 })
  fsg_search_init := fun w _ _ _ =>
    if w.fsg_ok then (some w.next, { w with objs := (w.next, "fsg") :: w.objs, next := w.next + 1 })
    else (none, w)
  ngram_search_init := fun w _ _ _ =>
    if w.ngram_ok then
      (some w.next, { w with objs := (w.next, "ngram") :: w.objs, next := w.next + 1 })
    else (none, w)
  search_name := fun w a => (w.objs.lookup a).getD ""
  search_free := fun w a => { w with objs := w.objs.filter (fun o => o.1 ≠ a) }
  search_reinit := fun w _ => (w.reinit_rv, w)
  search_start := fun w _ => (0, w)
  search_step := fun w _ =>
    if 0 < w.pending then
      (1, { w with pending := w.pending - 1, output_frame := w.output_frame + 1 })
    else (if w.step_fails then -1 else 0, w)
  search_finish := fun w _ => (w.finish_rv, w)
  ngram_lmset := fun _ a => some (a + 100)
  ngram_model_add_word := fun w _ _ => ((w.words : Int), w)

/-- An example configuration naming a model directory and a language model. -/
def toyConfig : cmd_ln_t :=
  { addr := 1, opts := [("-hmm", .str "hmm"), ("-mean", .str "my.means"), ("-lm", .str "a.lm")] }

/-- An example configuration that names neither a grammar nor a language model. -/
def toyConfigBare : cmd_ln_t :=
  { addr := 2, opts := [("-hmm", .str "hmm")] }

/-- State left by an outcome; `d` when the loop bound was exhausted. -/
def Res.stateD {W α : Type} (r : Res W α) (d : State W) : State W :=
  r.state.getD d

/-- The context built by `pocketsphinx_init` in world `w` from configuration `c`. -/
def toyInit (w : Toy) (c : cmd_ln_t) : State Toy :=
  (pocketsphinx_init toy w (some c)).stateD { ps := ps_calloc, world := w, trace := [] }

/-- A freshly constructed context with a language-model search. -/
def toyReady : State Toy := toyInit Toy.fresh toyConfig

/-- One utterance in the example world `w`: construct, `start_utt`, `process_raw`
on `data`, `end_utt`. The outcome of the last call. -/
def toySession (w : Toy) (data : List Int) : Res Toy Int :=
  (pocketsphinx_start_utt toy (toyInit w toyConfig) none).bind fun _ s1 =>
    (pocketsphinx_process_raw toy 10 s1 data false false).bind fun _ s2 =>
      pocketsphinx_end_utt toy 10 s2

/-- The example context after a grammar search could not be built. -/
def toyAfterFailedFsg : State Toy :=
  (pocketsphinx_update_fsgset toy (toyInit { Toy.fresh with fsg_ok := false } toyConfig)).stateD
    toyReady

/-- The example collaborators with a search whose step reports 2147483647 frames,
the largest `int`, for each pending frame it searches. -/
def toyBig : Collab Toy :=
  { toy with
    search_step := fun w _ =>
      if 0 < w.pending then (2147483647, { w with pending := w.pending - 1 }) else (0, w) }

/-! ## Acoustic scoring and the driver of test/unit/test_acmod.c -/

/-- Modelled from the spec: the parameters of the acoustic model. The code of the
acoustic model (`acmod.c`) is not among the sources; the spec gives it a minimum
frame-length granularity, a feature buffer that is fixed or growable, and per
frame a best score and a best senone. -/
structure acmod_model where
  /-- Samples per frame: the minimum frame-length granularity. -/
  frame_len : Nat
  /-- Frames the feature buffer holds while it is not growable. -/
  n_feat_alloc : Nat
  /-- Best score and best senone of a frame. -/
  best : List Int → Int × Int

/-- Modelled from the spec: the state of the acoustic model within an utterance. -/
structure acmod_t where
  /-- Is the feature buffer growable. -/
  grow : Bool
  /-- Samples of the frame being assembled. -/
  pending : List Int
  /-- Frames extracted and not scored yet, oldest first. -/
  feat_buf : List (List Int)
  /-- Index of the next frame to score. -/
  output_frame : Nat
  deriving DecidableEq, Repr

namespace Acmod

/-- Modelled from the spec: `start_utt()` resets the utterance state. -/
def start_utt (a : acmod_t) : Int × acmod_t :=
  (0, { a with pending := [], feat_buf := [], output_frame := 0 })

/-- Modelled from the spec: one sample enters the frame being assembled, and the
frame moves to the feature buffer once it has `frame_len` samples. -/
def push (M : acmod_model) (a : acmod_t) (x : Int) : acmod_t :=
  if (a.pending ++ [x]).length = M.frame_len then
    { a with pending := [], feat_buf := a.feat_buf ++ [a.pending ++ [x]] }
  else { a with pending := a.pending ++ [x] }

/-- Modelled from the spec: `process_raw(samples, count, whole_utterance)`, given
the number `nfr` of frames extracted so far in this call. Samples are taken in
order; a feature buffer that is full and may not grow stops the call, and the
samples not taken stay with the caller. The result is the number of frames
extracted, the samples left, and the new state. -/
def process_raw_from (M : acmod_model) (full_utt : Bool) :
    List Int → acmod_t → Nat → Int × List Int × acmod_t
  | [], a, nfr => (nfr, [], a)
  | x :: xs, a, nfr =>
    if !(full_utt || a.grow) && M.n_feat_alloc ≤ a.feat_buf.length then (nfr, x :: xs, a)
    else
      process_raw_from M full_utt xs (push M a x)
        (nfr + ((push M a x).feat_buf.length - a.feat_buf.length))

/-- Modelled from the spec: `process_raw(samples, count, whole_utterance)`. -/
def process_raw (M : acmod_model) (a : acmod_t) (samples : List Int) (full_utt : Bool) :
    Int × List Int × acmod_t :=
  process_raw_from M full_utt samples a 0

/-- Modelled from the spec: `score()` gives the frame index, best score and best
senone of the oldest frame not scored yet, or `none` when exhausted. -/
def score (M : acmod_model) (a : acmod_t) : Option ((Nat × Int × Int) × acmod_t) :=
  match a.feat_buf with
  | [] => none
  | f :: rest =>
    some ((a.output_frame, (M.best f).1, (M.best f).2),
      { a with feat_buf := rest, output_frame := a.output_frame + 1 })

/-- Modelled from the spec: `end_utt()` flushes the utterance; the samples of an
incomplete last frame are given up. -/
def end_utt (a : acmod_t) : Int × acmod_t :=
  (0, { a with pending := [] })

end Acmod

/-- Frames cut from `samples` when `pending` holds the samples of the frame being
assembled: the complete frames in order, and the samples left over. -/
def Acmod.cut (M : acmod_model) : List Int → List Int → List (List Int) × List Int
  | pending, [] => ([], pending)
  | pending, x :: xs =>
    if (pending ++ [x]).length = M.frame_len then
      ((pending ++ [x]) :: (Acmod.cut M [] xs).1, (Acmod.cut M [] xs).2)
    else Acmod.cut M (pending ++ [x]) xs

/-- The (frame index, best senone) pairs of the frames `fs`, numbered from `k`. -/
def labelled (M : acmod_model) : Nat → List (List Int) → List (Nat × Int)
  | _, [] => []
  | k, f :: fs => (k, (M.best f).2) :: labelled M (k + 1) fs

/-- Outcome of a run of the test driver. -/
inductive Run (α : Type) where
  /-- The run finished with every `TEST_EQUAL` satisfied. -/
  | done (a : α)
  /-- A `TEST_EQUAL` failed. -/
  | failed
  /-- The loop bound of the embedding was exhausted. -/
  | nofuel
  deriving DecidableEq, Repr

/-- Sequencing of runs. -/
def Run.bind {α β : Type} (r : Run α) (f : α → Run β) : Run β :=
  match r with
  | .done a => f a
  | .failed => .failed
  | .nofuel => .nofuel

/-- State of the test driver: the acoustic model, `frame_counter`, and the
(frame index, best senone) pairs seen so far. The test keeps the best senones of
the first 128 frames in `bestsen1`; here every pair is kept. -/
structure TestState where
  acmod : acmod_t
  frame_counter : Nat
  seen : List (Nat × Int)
  deriving DecidableEq, Repr

/-- The loop `while ((senscr = acmod_score(acmod, &frame_idx, &best_score,
&best_senid)))` of `test_acmod.c`, with `TEST_EQUAL(frame_counter, frame_idx)` and
`++frame_counter` in its body. -/
def score_loop (M : acmod_model) : Nat → TestState → Run TestState
  | 0, _ => .nofuel
  | fuel + 1, t =>
    match Acmod.score M t.acmod with
    | none => .done t
    | some ((frame_idx, _, best_senid), a) =>
      if t.frame_counter ≠ frame_idx then .failed
      else score_loop M fuel
        { acmod := a, frame_counter := t.frame_counter + 1,
          seen := t.seen ++ [(frame_idx, best_senid)] }

/-- The loop `while ((nfr = acmod_process_raw(acmod, &bptr, &nread, FALSE)) > 0)`
of `test_acmod.c`, whose body is the scoring loop; `data` holds the `nread` samples
at `bptr`. -/
def chunk_loop (M : acmod_model) : Nat → TestState → List Int → Run TestState
  | 0, _, _ => .nofuel
  | fuel + 1, t, data =>
    let r := Acmod.process_raw M t.acmod data false
    if r.1 > 0 then
      (score_loop M fuel { t with acmod := r.2.2 }).bind fun t1 => chunk_loop M fuel t1 r.2.1
    else .done { t with acmod := r.2.2 }

/-- The loop `while (!feof(rawfh))` of `test_acmod.c`: each `fread` delivers the
next chunk. -/
def read_loop (M : acmod_model) (fuel : Nat) : TestState → List (List Int) → Run TestState
  | t, [] => .done t
  | t, chunk :: rest => (chunk_loop M fuel t chunk).bind fun t1 => read_loop M fuel t1 rest

/-- First half of `main` in `test_acmod.c`: the utterance is fed chunk by chunk
between `acmod_start_utt` and `acmod_end_utt`, then what the flush released is
scored. The (frame index, best senone) pairs seen, in order. -/
def run_chunked (M : acmod_model) (fuel : Nat) (a : acmod_t) (chunks : List (List Int)) :
    Run (List (Nat × Int)) :=
  let t0 : TestState := { acmod := (Acmod.start_utt a).2, frame_counter := 0, seen := [] }
  (read_loop M fuel t0 chunks).bind fun t1 =>
    (chunk_loop M fuel { t1 with acmod := (Acmod.end_utt t1.acmod).2 } []).bind fun t2 =>
      .done t2.seen

/-- Second half of `main` in `test_acmod.c`: the whole buffer goes through one
`acmod_process_raw` call with `full_utt` TRUE, then `acmod_end_utt`, then every
frame is scored. The (frame index, best senone) pairs seen, in order. -/
def run_whole (M : acmod_model) (fuel : Nat) (a : acmod_t) (buf : List Int) :
    Run (List (Nat × Int)) :=
  let a1 := (Acmod.start_utt a).2
  let a2 := (Acmod.process_raw M a1 buf true).2.2
  let a3 := (Acmod.end_utt a2).2
  (score_loop M fuel { acmod := a3, frame_counter := 0, seen := [] }).bind fun t =>
    .done t.seen

/-- An example acoustic model: frames of two samples, a feature buffer of one
frame, and the sum of a frame as its best senone. -/
def toyModel : acmod_model :=
  { frame_len := 2, n_feat_alloc := 1, best := fun f => (0, f.sum) }

/-- An acoustic model state before any utterance. -/
def toyAcmod : acmod_t :=
  { grow := false, pending := [], feat_buf := [], output_frame := 0 }

/-- Example collaborators around the acoustic model `M` of this section, whose
feature buffer is fixed: the extraction call is `Acmod.process_raw`, which stops
at a full buffer, and a search step scores the oldest frame of the buffer and
returns 1, or returns 0 when the buffer is empty. A cepstral frame goes into the
buffer when there is room for it. -/
def bufCollab (M : acmod_model) : Collab acmod_t where
  file_exists := fun _ => false
  acmod_init := fun w _ => (some 1, w)
  acmod_free := fun w _ => w
  acmod_set_grow := fun w _ b => { w with grow := b }
  acmod_start_utt := fun w _ => Acmod.start_utt w
  acmod_process_raw := fun w _ data full => Acmod.process_raw M w data full
  acmod_process_cep := fun w _ data full =>
    match data with
    | [] => (0, [], w)
    | f :: rest =>
      if !(full || w.grow) && M.n_feat_alloc ≤ w.feat_buf.length then (0, f :: rest, w)
      else (1, rest, { w with feat_buf := w.feat_buf ++ [f] })
  acmod_end_utt := fun w _ => Acmod.end_utt w
  acmod_output_frame := fun w _ => w.output_frame
  dict_init := fun w _ _ => (some 2, w)
  dict_free := fun w _ => w
  dict_add_word := fun w _ _ _ => (0, w)
  fsg_search_init := fun w _ _ _ => (some 10, w)
  ngram_search_init := fun w _ _ _ => (some 11, w)
  search_name := fun _ a => if a = 10 then "fsg" else "ngram"
  search_free := fun w _ => w
  search_reinit := fun w _ => (0, w)
  search_start := fun w _ => (0, w)
  search_step := fun w _ =>
    match Acmod.score M w with
    | none => (0, w)
    | some r => (1, r.2)
  search_finish := fun w _ => (0, w)
  ngram_lmset := fun _ a => some (a + 100)
  ngram_model_add_word := fun w _ _ => (0, w)

/-- A freshly constructed context over the fixed-buffer collaborators of
`toyModel`, with a language-model search. -/
def bufReady : State acmod_t :=
  (pocketsphinx_init (bufCollab toyModel) toyAcmod (some toyConfig)).stateD
    { ps := ps_calloc, world := toyAcmod, trace := [] }

/-! ## Registry invariant and reachable states -/

/-- The registry invariant of the data model: every entry of the registry is a
search that was built (not NULL), no two entries have the same name, and the
active search, when there is one, is an entry of the registry. -/
def registry_invariant {W : Type} (E : Collab W) (st : State W) : Prop :=
  (∀ e ∈ st.ps.searches, e ≠ none) ∧
  ((st.ps.searches.filterMap id).map (E.search_name st.world)).Nodup ∧
  (∀ a, st.ps.search = some a → some a ∈ st.ps.searches)

/-- A call of the session API that touches the searches or the vocabulary. -/
inductive Op where
  | reconfigure (config : Option cmd_ln_t)
  | update_lmset
  | update_fsgset
  | add_word (word phones : String) (update : Bool)
  deriving DecidableEq, Repr

/-- State left by a call that returned, whether with success or with a failure
value; `none` when the call did not return. -/
def run_op {W : Type} (E : Collab W) (st : State W) : Op → Option (State W)
  | .reconfigure config =>
    match pocketsphinx_reinit E st config with
    | .ret _ s => some s
    | _ => none
  | .update_lmset =>
    match pocketsphinx_update_lmset E st with
    | .ret _ s => some s
    | _ => none
  | .update_fsgset =>
    match pocketsphinx_update_fsgset E st with
    | .ret _ s => some s
    | _ => none
  | .add_word word phones update =>
    match pocketsphinx_add_word E st word phones update with
    | .ret _ s => some s
    | _ => none

/-- States reachable from a construction by calls that return. -/
inductive Reachable {W : Type} (E : Collab W) : State W → Prop where
  | construct (w : W) (config : Option cmd_ln_t) (st : State W) :
      pocketsphinx_init E w config = .ret true st → Reachable E st
  | call (st : State W) (op : Op) (st' : State W) :
      Reachable E st → run_op E st op = some st' → Reachable E st'

/-- An example configuration that names a grammar. -/
def toyConfigFsg : cmd_ln_t :=
  { addr := 3, opts := [("-hmm", .str "hmm"), ("-fsg", .str "a.fsg")] }

/-! # Properties -/

section properties
variable {W : Type} (E : Collab W)

/-! ## Configuration and default paths -/

theorem lookup_cons_if (name k : String) (w : cmd_ln_val) (l : List (String × cmd_ln_val)) :
    ((k, w) :: l).lookup name = if name = k then some w else l.lookup name := by
  by_cases h : name = k
  · have : (name == k) = true := by simpa using h
    simp [List.lookup, this, h]
  · have : (name == k) = false := by simpa using h
    simp [List.lookup, this, h]

theorem lookup_setOpt (name arg : String) (v : cmd_ln_val) (l : List (String × cmd_ln_val)) :
    (setOpt arg v l).lookup name = if name = arg then some v else l.lookup name := by
  induction l with
  | nil => simp [setOpt, lookup_cons_if]
  | cons p rest ih =>
    obtain ⟨k, w⟩ := p
    by_cases hk : k = arg
    · subst hk
      simp only [setOpt, if_true, lookup_cons_if]
      by_cases h : name = k <;> simp [h]
    · simp only [setOpt, hk, if_false, lookup_cons_if, ih]
      by_cases h : name = k
      · subst h
        simp [hk]
      · simp [h]

theorem str_set_str (c : cmd_ln_t) (arg v name : String) :
    cmd_ln_str_r (cmd_ln_set_str_r c arg v) name
      = if name = arg then some v else cmd_ln_str_r c name := by
  unfold cmd_ln_str_r cmd_ln_set_str_r
  simp only [lookup_setOpt]
  by_cases h : name = arg <;> simp [h]


/-- Configuration after one `pocketsphinx_add_file`. -/
theorem add_file_config (fe : String → Bool) (ps : pocketsphinx_t) (c : cmd_ln_t)
    (arg h file : String) (hc : ps.config = some c) :
    ∃ ps' c', pocketsphinx_add_file fe ps arg h file = some ps' ∧ ps'.config = some c' ∧
      (∀ name, cmd_ln_str_r c' name =
        if name = arg ∧ cmd_ln_str_r c arg = none ∧ fe (h ++ "/" ++ file) = true
        then some (h ++ "/" ++ file) else cmd_ln_str_r c name) := by
  unfold pocketsphinx_add_file
  rw [hc]
  by_cases h1 : cmd_ln_str_r c arg = none
  · by_cases h2 : fe (h ++ "/" ++ file) = true
    · refine ⟨_, _, by simp [h1, h2]; rfl, rfl, ?_⟩
      intro name
      simp [str_set_str, h1, h2]
    · refine ⟨ps, c, by simp [h1, h2], hc, ?_⟩
      intro name; simp [h2]
  · refine ⟨ps, c, by simp [h1], hc, ?_⟩
    intro name; simp [h1]


theorem init_defaults_eq_addAll (fe : String → Bool) (ps : pocketsphinx_t) (c : cmd_ln_t)
    (h : String) (hc : ps.config = some c) (hh : cmd_ln_str_r c "-hmm" = some h) :
    pocketsphinx_init_defaults fe ps = addAll fe h artifacts ps := by
  unfold pocketsphinx_init_defaults
  simp [hc, hh, addAll, artifacts]

theorem addAll_spec (fe : String → Bool) (h : String) :
    ∀ (l : List (String × String)) (ps : pocketsphinx_t) (c : cmd_ln_t),
      ps.config = some c → (l.map Prod.fst).Nodup →
      ∃ ps' c', addAll fe h l ps = some ps' ∧ ps'.config = some c' ∧
        ∀ name, (name ∉ l.map Prod.fst → cmd_ln_str_r c' name = cmd_ln_str_r c name) ∧
          (∀ file, (name, file) ∈ l → cmd_ln_str_r c' name =
            if cmd_ln_str_r c name = none ∧ fe (h ++ "/" ++ file) = true
            then some (h ++ "/" ++ file) else cmd_ln_str_r c name) := by
  intro l
  induction l with
  | nil =>
    intro ps c hc _
    exact ⟨ps, c, rfl, hc, fun name => ⟨fun _ => rfl, fun file hf => by simp at hf⟩⟩
  | cons p l ih =>
    intro ps c hc hnd
    obtain ⟨p1, c1, e1, k1, f1⟩ := add_file_config fe ps c p.1 h p.2 hc
    rw [List.map_cons, List.nodup_cons] at hnd
    obtain ⟨ps', c', e', k', f'⟩ := ih p1 c1 k1 hnd.2
    refine ⟨ps', c', by simp [addAll, e1, e'], k', fun name => ⟨?_, ?_⟩⟩
    · intro hname
      rw [List.map_cons, List.mem_cons, not_or] at hname
      rw [(f' name).1 hname.2, f1 name]
      simp [hname.1]
    · intro file hf
      rw [List.mem_cons] at hf
      rcases hf with hf | hf
      · have hp1 : name = p.1 := by rw [← hf]
        have hp2 : file = p.2 := by rw [← hf]
        have hnot : name ∉ l.map Prod.fst := by rw [hp1]; exact hnd.1
        rw [(f' name).1 hnot, f1 name, hp1, hp2]
        simp
      · have hin : name ∈ l.map Prod.fst := List.mem_map.2 ⟨(name, file), hf, rfl⟩
        have hne : name ≠ p.1 := fun e => hnd.1 (e ▸ hin)
        rw [(f' name).2 file hf, f1 name]
        simp [hne]

/-- C8. Default-path resolution never overrides an explicit option. On a context
with a configuration, `pocketsphinx_init_defaults` returns, and for each of the nine
artifact options: a value that was set is kept; an option that was unset holds
`hmmdir/file` afterwards exactly when `-hmm` is configured as `hmmdir` and that file
exists, and is unset otherwise. Every other string option keeps its value, and
without `-hmm` the context is unchanged. -/
theorem init_defaults_never_overrides (fe : String → Bool) (ps : pocketsphinx_t)
    (c : cmd_ln_t) (hc : ps.config = some c) :
    ∃ ps' c', pocketsphinx_init_defaults fe ps = some ps' ∧ ps'.config = some c' ∧
      (∀ p ∈ artifacts,
        (∀ v, cmd_ln_str_r c p.1 = some v → cmd_ln_str_r c' p.1 = some v) ∧
        (cmd_ln_str_r c p.1 = none → ∀ v, cmd_ln_str_r c' p.1 = some v ↔
          ∃ h, cmd_ln_str_r c "-hmm" = some h ∧ fe (h ++ "/" ++ p.2) = true ∧
            v = h ++ "/" ++ p.2)) ∧
      (∀ name, name ∉ artifacts.map Prod.fst → cmd_ln_str_r c' name = cmd_ln_str_r c name) ∧
      (cmd_ln_str_r c "-hmm" = none → ps' = ps) := by
  cases hh : cmd_ln_str_r c "-hmm" with
  | none =>
    refine ⟨ps, c, by simp [pocketsphinx_init_defaults, hc, hh], hc, ?_, fun _ _ => rfl,
      fun _ => rfl⟩
    intro p _
    refine ⟨fun v hv => hv, fun hn v => ?_⟩
    simp [hn]
  | some h =>
    obtain ⟨ps', c', e', k', f'⟩ := addAll_spec fe h artifacts ps c hc (by decide)
    refine ⟨ps', c', by rw [init_defaults_eq_addAll fe ps c h hc hh, e'], k', ?_,
      fun name hn => (f' name).1 hn, fun hn => by cases hn⟩
    intro p hp
    have hv := (f' p.1).2 p.2 hp
    refine ⟨fun v hv1 => by rw [hv, hv1]; simp, fun hn v => ?_⟩
    rw [hv, hn]
    by_cases hf : fe (h ++ "/" ++ p.2) = true
    · simp only [hf, and_self, if_true]
      constructor
      · intro e
        exact ⟨h, rfl, hf, (Option.some.inj e).symm⟩
      · rintro ⟨h1, e1, _, e3⟩
        cases e1
        rw [e3]
    · simp only [hf, and_false, if_false]
      constructor
      · intro e; cases e
      · rintro ⟨h1, e1, e2, _⟩
        cases e1
        exact absurd e2 hf


/-! ## Outcomes, states and traces -/


@[simp]
theorem Res.bind_ret {α β : Type} (a : α) (s : State W) (f : α → State W → Res W β) :
    (Res.ret a s).bind f = f a s := rfl
@[simp]
theorem Res.bind_fault {α β : Type} (s : State W) (f : α → State W → Res W β) :
    (Res.fault s : Res W α).bind f = .fault s := rfl
@[simp]
theorem Res.bind_nofuel {α β : Type} (f : α → State W → Res W β) :
    (Res.nofuel : Res W α).bind f = .nofuel := rfl
@[simp]
theorem State.log_ps (st : State W) (c : Call) : (st.log c).ps = st.ps := rfl
@[simp]
theorem State.log_world (st : State W) (c : Call) : (st.log c).world = st.world := rfl
@[simp]
theorem State.log_trace (st : State W) (c : Call) :
    (st.log c).trace = st.trace ++ [c] := rfl
@[simp]
theorem State.setPs_ps (st : State W) (p : pocketsphinx_t) : (st.setPs p).ps = p := rfl
@[simp]
theorem State.setPs_world (st : State W) (p : pocketsphinx_t) :
    (st.setPs p).world = st.world := rfl
@[simp]
theorem State.setPs_trace (st : State W) (p : pocketsphinx_t) :
    (st.setPs p).trace = st.trace := rfl
@[simp]
theorem State.setWorld_ps (st : State W) (w : W) : (st.setWorld w).ps = st.ps := rfl
@[simp]
theorem State.setWorld_world (st : State W) (w : W) : (st.setWorld w).world = w := rfl
@[simp]
theorem State.setWorld_trace (st : State W) (w : W) :
    (st.setWorld w).trace = st.trace := rfl

/-! ## Fixed-width counters -/

theorem int_wrap_add (x y : Int) : int_wrap (int_wrap x + y) = int_wrap (x + y) := by
  unfold int_wrap
  omega

theorem int_wrap_idem (x : Int) : int_wrap (int_wrap x) = int_wrap x := by
  unfold int_wrap
  omega

theorem int_wrap_of_lt (x : Int) (h0 : 0 ≤ x) (h1 : x < 2147483648) : int_wrap x = x := by
  unfold int_wrap
  omega

/-! ## The processing loop -/

theorem posStepSum_append (t1 t2 : List Call) :
    posStepSum (t1 ++ t2) = posStepSum t1 + posStepSum t2 := by
  simp [posStepSum, List.filterMap_append, List.filter_append, List.sum_append]

theorem posStepSum_steps (a : Nat) (pos : List Int) (h : ∀ v ∈ pos, 0 < v) :
    posStepSum (pos.map (Call.ps_search_step a)) = pos.sum := by
  have h1 : (pos.map (Call.ps_search_step a)).filterMap Call.stepCode = pos := by
    rw [List.filterMap_map]
    have : Call.stepCode ∘ Call.ps_search_step a = some := by
      funext v; rfl
    rw [this, List.filterMap_some]
  have h2 : pos.filter (fun v => 0 < v) = pos := by
    rw [List.filter_eq_self]
    intro v hv; simpa using h v hv
  rw [posStepSum, h1, h2]

theorem noNegative_append (t1 t2 : List Call) :
    noNegative (t1 ++ t2) ↔ noNegative t1 ∧ noNegative t2 := by
  unfold noNegative
  constructor
  · intro h
    exact ⟨fun c hc => h c (List.mem_append_left _ hc), fun c hc => h c (List.mem_append_right _ hc)⟩
  · rintro ⟨h1, h2⟩ c hc
    rcases List.mem_append.1 hc with hc | hc
    · exact h1 c hc
    · exact h2 c hc

theorem noNegative_steps (a : Nat) (pos : List Int) (h : ∀ v ∈ pos, 0 < v) :
    noNegative (pos.map (Call.ps_search_step a)) := by
  intro c hc v hv
  obtain ⟨u, hu, rfl⟩ := List.mem_map.1 hc
  simp only [Call.code, Option.some.injEq] at hv
  have := h u hu
  omega

theorem posStepSum_nonneg (tr : List Call) : 0 ≤ posStepSum tr := by
  unfold posStepSum
  apply List.sum_nonneg
  intro v hv
  have := (List.mem_filter.1 hv).2
  simp only [decide_eq_true_eq] at this
  omega

/-- What the search loop has done when it returns: it stepped the active search,
every step but the last advanced, and the counter took the values in 32 bits. -/
theorem search_loop_ret :
    ∀ (fuel : Nat) (st : State W) (acc : Int) (r : Int × Int) (st' : State W),
      int_wrap acc = acc → search_loop E fuel st acc = .ret r st' →
      ∃ (a : Nat) (pos : List Int), st.ps.search = some a ∧ st'.ps = st.ps ∧ r.1 ≤ 0 ∧
        (∀ v ∈ pos, 0 < v) ∧ r.2 = int_wrap (acc + pos.sum) ∧
        st'.trace = st.trace ++ pos.map (Call.ps_search_step a) ++ [Call.ps_search_step a r.1] := by
  intro fuel
  induction fuel with
  | zero => intro st acc r st' _ h; simp [search_loop] at h
  | succ fuel ih =>
    intro st acc r st' hacc h
    cases hs : st.ps.search with
    | none => simp [search_loop, ps_search_step, hs] at h
    | some a =>
      simp only [search_loop, ps_search_step, hs, Res.bind_ret, gt_iff_lt] at h
      by_cases hpos : 0 < (E.search_step st.world a).1
      · simp only [hpos, if_true] at h
        obtain ⟨a', pos, h1, h2, h3, h4, h5, h6⟩ := ih _ _ r st' (int_wrap_idem _) h
        have ha : a' = a := by
          have : some a' = some a := by rw [← h1]; exact hs
          exact Option.some.inj this
        subst ha
        refine ⟨a', (E.search_step st.world a').1 :: pos, rfl, ?_, h3, ?_, ?_, ?_⟩
        · rw [h2]; rfl
        · intro v hv
          rcases List.mem_cons.1 hv with rfl | hv
          · exact hpos
          · exact h4 v hv
        · rw [h5, int_wrap_add, List.sum_cons, add_assoc]
        · rw [h6]; simp
      · simp only [hpos, if_false, Res.ret.injEq] at h
        obtain ⟨h1, h2⟩ := h
        subst h1 h2
        exact ⟨a, [], rfl, rfl, by simp only; omega, by simp, by simp [hacc], by simp⟩

theorem LoopOutcome.prepend {p : pocketsphinx_t} {acc rv : Int} {t1 t2 : List Call}
    {p' : pocketsphinx_t} (h1 : ∀ c ∈ t1, c.code ≠ none) (h2 : noNegative t1)
    (h : LoopOutcome p (int_wrap (acc + posStepSum t1)) rv t2 p') :
    LoopOutcome p acc rv (t1 ++ t2) p' := by
  obtain ⟨hc, h⟩ := h
  refine ⟨?_, ?_⟩
  · intro c hcm
    rcases List.mem_append.1 hcm with hcm | hcm
    · exact h1 c hcm
    · exact hc c hcm
  · rcases h with ⟨hn, hrv, hp⟩ | ⟨pre, last, ht, hl, hneg, hn, hp⟩
    · left
      refine ⟨(noNegative_append _ _).2 ⟨h2, hn⟩, ?_, hp⟩
      rw [hrv, int_wrap_add, posStepSum_append, add_assoc]
    · right
      exact ⟨t1 ++ pre, last, by rw [ht, List.append_assoc], hl, hneg,
        (noNegative_append _ _).2 ⟨h2, hn⟩, hp⟩

/-- What the processing loop has done when it returns, whatever the collaborators
are: the outcome of its calls, and, from a non-empty input, the extraction call on
that input came first. -/
theorem process_loop_ret {D : Type}
    (extract : State W → List D → Bool → Res W (Int × List D)) (hx : ExtractLogs extract)
    (no_search full : Bool) :
    ∀ (fuel : Nat) (st : State W) (data : List D) (acc rv : Int) (st' : State W),
      int_wrap acc = acc →
      process_loop E extract no_search full fuel st data acc = .ret rv st' →
      ∃ tr : List Call, st'.trace = st.trace ++ tr ∧ LoopOutcome st.ps acc rv tr st'.ps ∧
        (data = [] → tr = []) ∧
        (data ≠ [] → ∃ (r : Int × List D) (st1 : State W) (c : Call) (tr' : List Call),
          extract st data full = .ret r st1 ∧ st1.trace = st.trace ++ [c] ∧ tr = c :: tr') ∧
        (no_search = true → posStepSum tr = 0) ∧
        (no_search = false → data ≠ [] → noNegative tr →
          ∃ (a : Nat) (pre : List Call), st.ps.search = some a ∧
            tr = pre ++ [.ps_search_step a 0]) := by
  intro fuel
  induction fuel with
  | zero => intro st data acc rv st' _ h; simp [process_loop] at h
  | succ fuel ih =>
    intro st data acc rv st' hacc h
    by_cases hd : data = []
    · subst hd
      simp only [process_loop, List.length_nil, if_true, Res.ret.injEq] at h
      obtain ⟨h1, h2⟩ := h
      subst h1 h2
      refine ⟨[], by simp, ⟨by simp, Or.inl ⟨by simp [noNegative], ?_, by simp⟩⟩,
        fun _ => rfl, fun hne => absurd rfl hne, fun _ => by simp [posStepSum],
        fun _ hne => absurd rfl hne⟩
      simp [posStepSum, hacc]
    · have hlen0 : data.length ≠ 0 := fun e => hd (List.length_eq_zero.1 e)
      simp only [process_loop, hlen0, if_false] at h
      cases hex : extract st data full with
      | nofuel => simp [hex] at h
      | fault s => simp [hex] at h
      | ret r st1 =>
        obtain ⟨hp1, c, ht1, hc1, hc2⟩ := hx st data full r st1 hex
        simp only [hex, Res.bind_ret] at h
        have hone : ∀ c' ∈ [c], c'.code ≠ none := by
          intro c' hc'
          rw [List.mem_singleton.1 hc', hc1]; simp
        have hsum : posStepSum [c] = 0 := by simp [posStepSum, hc2]
        by_cases hrv : r.1 < 0
        · simp only [hrv, if_true, Res.ret.injEq] at h
          obtain ⟨h1, h2⟩ := h
          subst h1 h2
          refine ⟨[c], ht1, ⟨hone, Or.inr ⟨[], c, rfl, hc1, hrv, by simp [noNegative], hp1⟩⟩,
            fun e => absurd e hd, fun _ => ⟨r, st1, c, [], rfl, ht1, rfl⟩, fun _ => hsum, ?_⟩
          intro _ _ hn
          have := hn c (by simp) r.1 hc1
          omega
        · have hnn : noNegative [c] := by
            intro c' hc' v hv
            rw [List.mem_singleton.1 hc', hc1] at hv
            cases hv; omega
          simp only [hrv, if_false] at h
          cases no_search with
          | true =>
            simp only [Bool.not_true, Bool.false_eq_true, if_false] at h
            obtain ⟨tr2, hr1, hr2, _, _, hr5⟩ := ih st1 r.2 acc rv st' hacc h
            refine ⟨[c] ++ tr2, by rw [hr1, ht1, List.append_assoc], ?_, fun e => absurd e hd,
              fun _ => ⟨r, st1, c, tr2, rfl, ht1, rfl⟩,
              fun _ => by rw [posStepSum_append, hsum, hr5.1 rfl, add_zero],
              fun e => Bool.noConfusion e⟩
            apply LoopOutcome.prepend hone hnn
            rw [hsum, add_zero, hacc, ← hp1]
            exact hr2
          | false =>
            simp only [Bool.not_false, if_true] at h
            cases hsl : search_loop E fuel st1 acc with
            | nofuel => simp [hsl] at h
            | fault s => simp [hsl] at h
            | ret q st2 =>
              obtain ⟨a, pos, hs1, hs2, hs3, hs4, hs5, hs6⟩ :=
                search_loop_ret E fuel st1 acc q st2 hacc hsl
              simp only [hsl, Res.bind_ret] at h
              have hall : ∀ c' ∈ [c] ++ pos.map (Call.ps_search_step a) ++
                  [Call.ps_search_step a q.1], c'.code ≠ none := by
                intro c' hc'
                simp only [List.mem_append, List.mem_singleton, List.mem_map] at hc'
                rcases hc' with (rfl | ⟨u, _, rfl⟩) | rfl
                · rw [hc1]; simp
                · simp [Call.code]
                · simp [Call.code]
              have hn1 : noNegative ([c] ++ pos.map (Call.ps_search_step a)) :=
                (noNegative_append _ _).2 ⟨hnn, noNegative_steps a pos hs4⟩
              by_cases hq : q.1 < 0
              · simp only [hq, if_true, Res.ret.injEq] at h
                obtain ⟨h1, h2⟩ := h
                subst h1 h2
                refine ⟨[c] ++ pos.map (Call.ps_search_step a) ++ [Call.ps_search_step a q.1],
                  by rw [hs6, ht1]; simp, ⟨hall, Or.inr ⟨_, _, rfl, rfl, hq, hn1, ?_⟩⟩,
                  fun e => absurd e hd, fun _ => ⟨r, st1, c,
                    pos.map (Call.ps_search_step a) ++ [Call.ps_search_step a q.1], rfl, ht1,
                    by simp⟩, fun e => Bool.noConfusion e, ?_⟩
                · rw [hs2, hp1]
                · intro _ _ hn
                  have := hn (Call.ps_search_step a q.1) (by simp) q.1 rfl
                  omega
              · have hq0 : q.1 = 0 := by omega
                simp only [hq, if_false] at h
                have hq2 : int_wrap q.2 = q.2 := by rw [hs5, int_wrap_idem]
                obtain ⟨tr2, hr1, hr2, hr3, _, _, hr6⟩ := ih st2 r.2 q.2 rv st' hq2 h
                refine ⟨([c] ++ pos.map (Call.ps_search_step a) ++ [Call.ps_search_step a q.1])
                    ++ tr2, by rw [hr1, hs6, ht1]; simp, ?_, fun e => absurd e hd,
                  fun _ => ⟨r, st1, c,
                    pos.map (Call.ps_search_step a) ++ [Call.ps_search_step a q.1] ++ tr2, rfl,
                    ht1, by simp⟩, fun e => Bool.noConfusion e, ?_⟩
                swap
                · intro _ _ hn
                  have hsa : st.ps.search = some a := by rw [← hp1]; exact hs1
                  by_cases hr : r.2 = []
                  · refine ⟨a, [c] ++ pos.map (Call.ps_search_step a), hsa, ?_⟩
                    rw [hr3 hr, hq0, List.append_nil]
                  · obtain ⟨a', pre', hs', ht'⟩ := hr6 rfl hr ((noNegative_append _ _).1 hn).2
                    have haa : a' = a := by
                      have : some a' = some a := by rw [← hs', hs2]; exact hs1
                      exact Option.some.inj this
                    rw [haa] at ht'
                    refine ⟨a, ([c] ++ pos.map (Call.ps_search_step a) ++
                      [Call.ps_search_step a q.1]) ++ pre', hsa, ?_⟩
                    rw [ht']
                    simp only [List.append_assoc]
                apply LoopOutcome.prepend hall
                · rw [noNegative_append]
                  refine ⟨hn1, ?_⟩
                  intro c' hc' v hv
                  rw [List.mem_singleton.1 hc'] at hv
                  simp only [Call.code, Option.some.injEq] at hv
                  omega
                · have hsum2 : posStepSum ([c] ++ pos.map (Call.ps_search_step a) ++
                      [Call.ps_search_step a q.1]) = pos.sum := by
                    rw [posStepSum_append, posStepSum_append, posStepSum_steps a pos hs4, hsum]
                    simp [posStepSum, Call.stepCode, hq0]
                  rw [hsum2, ← hs5, ← hp1, ← hs2]
                  exact hr2

/-- The search loop returns when the fuel exceeds a measure that every productive
step decreases; a last step that reports no progress leaves the buffer drained. -/
theorem search_loop_total (μ : W → Nat) (drained : W → Prop)
    (hstep : ∀ w a, 0 < (E.search_step w a).1 → μ (E.search_step w a).2 < μ w)
    (hdrain : ∀ w a, (E.search_step w a).1 = 0 → drained (E.search_step w a).2) (a : Nat) :
    ∀ (n : Nat) (st : State W) (acc : Int), st.ps.search = some a → μ st.world < n →
      ∃ (r : Int × Int) (st' : State W),
        (∀ fuel, n ≤ fuel → search_loop E fuel st acc = .ret r st') ∧
        st'.ps = st.ps ∧ r.1 ≤ 0 ∧ (r.1 = 0 → drained st'.world) := by
  intro n
  induction n with
  | zero => intro st acc _ h; omega
  | succ n ih =>
    intro st acc hs hμ
    by_cases hpos : 0 < (E.search_step st.world a).1
    · have hlt := hstep st.world a hpos
      obtain ⟨r, st', h1, h2, h3, h4⟩ :=
        ih ({ st with world := (E.search_step st.world a).2 }.log
              (.ps_search_step a (E.search_step st.world a).1))
          (int_wrap (acc + (E.search_step st.world a).1)) hs (by simp; omega)
      refine ⟨r, st', ?_, by rw [h2]; rfl, h3, h4⟩
      intro fuel hfuel
      obtain ⟨f, rfl⟩ : ∃ f, fuel = f + 1 := ⟨fuel - 1, by omega⟩
      simp only [search_loop, ps_search_step, hs, Res.bind_ret, gt_iff_lt, hpos, if_true]
      exact h1 f (by omega)
    · refine ⟨((E.search_step st.world a).1, acc),
        { st with world := (E.search_step st.world a).2 }.log
          (.ps_search_step a (E.search_step st.world a).1), ?_, rfl, by simp only; omega, ?_⟩
      · intro fuel hfuel
        obtain ⟨f, rfl⟩ : ∃ f, fuel = f + 1 := ⟨fuel - 1, by omega⟩
        simp only [search_loop, ps_search_step, hs, Res.bind_ret, gt_iff_lt, hpos, if_false]
      · intro h0
        exact hdrain st.world a h0

/-- The processing loop returns when the collaborators make progress. -/
theorem process_loop_total (μ : W → Nat) (drained : W → Prop)
    (hstep : ∀ w a, 0 < (E.search_step w a).1 → μ (E.search_step w a).2 < μ w)
    (hdrain : ∀ w a, (E.search_step w a).1 = 0 → drained (E.search_step w a).2)
    {D : Type} (extract : State W → List D → Bool → Res W (Int × List D))
    (p : pocketsphinx_t) (a : Nat) (hs : p.search = some a)
    (hx : ExtractOk extract p drained) (full : Bool) :
    ∀ (n : Nat) (data : List D) (st : State W) (acc : Int), data.length < n → st.ps = p →
      drained st.world →
      ∃ (f0 : Nat) (rv : Int) (st' : State W),
        ∀ fuel, f0 ≤ fuel → process_loop E extract false full fuel st data acc = .ret rv st' := by
  intro n
  induction n with
  | zero => intro data st acc h; omega
  | succ n ih =>
    intro data st acc hlen hp hD
    by_cases hd : data = []
    · subst hd
      refine ⟨1, acc, st.setPs { st.ps with n_frame := uint_wrap (st.ps.n_frame + acc) }, ?_⟩
      intro fuel hfuel
      obtain ⟨f, rfl⟩ : ∃ f, fuel = f + 1 := ⟨fuel - 1, by omega⟩
      simp [process_loop]
    · obtain ⟨rv, rest, st1, hx1, hx2, hx3⟩ := hx st data full hp hD hd
      have hlen0 : data.length ≠ 0 := fun e => hd (List.length_eq_zero.1 e)
      by_cases hrv : rv < 0
      · refine ⟨1, rv, st1, ?_⟩
        intro fuel hfuel
        obtain ⟨f, rfl⟩ : ∃ f, fuel = f + 1 := ⟨fuel - 1, by omega⟩
        simp [process_loop, hlen0, hx1, hrv]
      · obtain ⟨q, st2, hl1, hl2, hl3, hl4⟩ :=
          search_loop_total E μ drained hstep hdrain a (μ st1.world + 1) st1 acc
            (by rw [hx2]; exact hs) (by omega)
        by_cases hq : q.1 < 0
        · refine ⟨μ st1.world + 2, q.1, st2, ?_⟩
          intro fuel hfuel
          obtain ⟨f, rfl⟩ : ∃ f, fuel = f + 1 := ⟨fuel - 1, by omega⟩
          simp [process_loop, hlen0, hx1, hrv, hl1 f (by omega), hq]
        · have hq0 : q.1 = 0 := by omega
          obtain ⟨f0, rv', st', hr1⟩ :=
            ih rest st2 q.2 (by have := hx3 (by omega); omega) (by rw [hl2, hx2]) (hl4 hq0)
          refine ⟨max (μ st1.world + 1) f0 + 1, rv', st', ?_⟩
          intro fuel hfuel
          obtain ⟨f, rfl⟩ : ∃ f, fuel = f + 1 := ⟨fuel - 1, by omega⟩
          have e1 := hl1 f (by omega)
          have e2 := hr1 f (by omega)
          simp [process_loop, hlen0, hx1, hrv, e1, e2, hq]

theorem acmod_process_raw_logs : ExtractLogs (acmod_process_raw E) := by
  intro st data full r st1 h
  unfold acmod_process_raw at h
  cases hm : st.ps.acmod with
  | none => simp [hm] at h
  | some m =>
    simp only [hm, Res.ret.injEq] at h
    obtain ⟨h1, h2⟩ := h
    subst h1 h2
    exact ⟨rfl, _, rfl, rfl, rfl⟩

theorem acmod_process_cep_logs : ExtractLogs (acmod_process_cep E) := by
  intro st data full r st1 h
  unfold acmod_process_cep at h
  cases hm : st.ps.acmod with
  | none => simp [hm] at h
  | some m =>
    simp only [hm, Res.ret.injEq] at h
    obtain ⟨h1, h2⟩ := h
    subst h1 h2
    exact ⟨rfl, _, rfl, rfl, rfl⟩

theorem acmod_process_raw_ok (p : pocketsphinx_t) (m : Nat) (hm : p.acmod = some m)
    (drained : W → Prop)
    (hraw : ∀ w m data full, drained w → data ≠ [] →
      0 ≤ (E.acmod_process_raw w m data full).1 →
      (E.acmod_process_raw w m data full).2.1.length < data.length) :
    ExtractOk (acmod_process_raw E) p drained := by
  intro st data full hp hD hd
  refine ⟨(E.acmod_process_raw st.world m data full).1,
    (E.acmod_process_raw st.world m data full).2.1,
    { st with world := (E.acmod_process_raw st.world m data full).2.2 }.log
      (.acmod_process_raw (E.acmod_process_raw st.world m data full).1), ?_, ?_,
    hraw st.world m data full hD hd⟩
  · simp only [acmod_process_raw, hp, hm]
  · simp [hp]

theorem acmod_process_cep_ok (p : pocketsphinx_t) (m : Nat) (hm : p.acmod = some m)
    (drained : W → Prop)
    (hcep : ∀ w m data full, drained w → data ≠ [] →
      0 ≤ (E.acmod_process_cep w m data full).1 →
      (E.acmod_process_cep w m data full).2.1.length < data.length) :
    ExtractOk (acmod_process_cep E) p drained := by
  intro st data full hp hD hd
  refine ⟨(E.acmod_process_cep st.world m data full).1,
    (E.acmod_process_cep st.world m data full).2.1,
    { st with world := (E.acmod_process_cep st.world m data full).2.2 }.log
      (.acmod_process_cep (E.acmod_process_cep st.world m data full).1), ?_, ?_,
    hcep st.world m data full hD hd⟩
  · simp only [acmod_process_cep, hp, hm]
  · simp [hp]

/-- Reading of a loop outcome that started from the counter value 0. -/
theorem LoopOutcome.read {p p' : pocketsphinx_t} {rv : Int} {tr : List Call}
    (h : LoopOutcome p 0 rv tr p') :
    (∀ c ∈ tr, c.code ≠ none) ∧
    (noNegative tr → rv = int_wrap (posStepSum tr) ∧
      p' = { p with n_frame := uint_wrap (p.n_frame + rv) }) ∧
    (¬ noNegative tr → ∃ pre last, tr = pre ++ [last] ∧ last.code = some rv ∧ rv < 0 ∧
      noNegative pre ∧ p' = p) := by
  obtain ⟨hc, h⟩ := h
  refine ⟨hc, ?_, ?_⟩
  · intro hn
    rcases h with ⟨_, hrv, hp⟩ | ⟨pre, last, ht, hl, hneg, _, _⟩
    · exact ⟨by simpa using hrv, hp⟩
    · have := hn last (by rw [ht]; simp) rv hl
      omega
  · intro hn
    rcases h with ⟨hn', _, _⟩ | h
    · exact absurd hn' hn
    · exact h

/-- The extraction call of `pocketsphinx_process_raw`, when it returns, was made on
the acoustic model of the context and logged the value it returned. -/
theorem acmod_process_raw_call (st : State W) (data : List Int) (full : Bool)
    (r : Int × List Int) (st1 : State W) (c : Call)
    (h : acmod_process_raw E st data full = .ret r st1) (ht : st1.trace = st.trace ++ [c]) :
    ∃ m, st.ps.acmod = some m ∧
      c = .acmod_process_raw (E.acmod_process_raw st.world m data full).1 := by
  unfold acmod_process_raw at h
  cases hm : st.ps.acmod with
  | none => simp [hm] at h
  | some m =>
    simp only [hm, Res.ret.injEq] at h
    obtain ⟨_, h2⟩ := h
    subst h2
    refine ⟨m, rfl, ?_⟩
    simp only [State.log_trace] at ht
    have := List.append_cancel_left ht
    simp only [List.cons.injEq, and_true] at this
    exact this.symm

/-- What `pocketsphinx_process_raw` with `no_search` false has done when it returns. -/
theorem process_raw_ret (st : State W) (data : List Int) (full : Bool) (fuel : Nat)
    (rv : Int) (st' : State W)
    (h : pocketsphinx_process_raw E fuel st data false full = .ret rv st') :
    ∃ tr : List Call, st'.trace = st.trace ++ tr ∧ LoopOutcome st.ps 0 rv tr st'.ps ∧
      (data = [] → tr = []) ∧
      (data ≠ [] → ∃ (m : Nat) (tr' : List Call), st.ps.acmod = some m ∧
        tr = .acmod_process_raw (E.acmod_process_raw st.world m data full).1 :: tr') ∧
      (data ≠ [] → noNegative tr → ∃ (a : Nat) (pre : List Call), st.ps.search = some a ∧
        tr = pre ++ [.ps_search_step a 0]) := by
  simp only [pocketsphinx_process_raw, Bool.false_eq_true, if_false, Res.bind_ret] at h
  obtain ⟨tr, h1, h2, h3, h4, _, h6⟩ :=
    process_loop_ret E (acmod_process_raw E) (acmod_process_raw_logs E) false full fuel st data 0
      rv st' (by unfold int_wrap; omega) h
  refine ⟨tr, h1, h2, h3, ?_, h6 rfl⟩
  intro hd
  obtain ⟨r, st1, c, tr', hx, ht, hc⟩ := h4 hd
  obtain ⟨m, hm, hcm⟩ := acmod_process_raw_call E st data full r st1 c hx ht
  exact ⟨m, tr', hm, by rw [hc, hcm]⟩

/-- What `pocketsphinx_process_raw` with `no_search` true has done when it returns:
it first made the feature buffer growable. -/
theorem process_raw_ret_no_search (st : State W) (data : List Int) (full : Bool) (fuel : Nat)
    (rv : Int) (st' : State W)
    (h : pocketsphinx_process_raw E fuel st data true full = .ret rv st') :
    ∃ (m : Nat) (tr : List Call), st.ps.acmod = some m ∧
      st'.trace = st.trace ++ .acmod_set_grow true :: tr ∧
      LoopOutcome st.ps 0 rv tr st'.ps ∧
      (data = [] → tr = []) ∧
      (data ≠ [] → ∃ tr' : List Call,
        tr = .acmod_process_raw
          (E.acmod_process_raw (E.acmod_set_grow st.world m true) m data full).1 :: tr') ∧
      posStepSum tr = 0 := by
  cases hm : st.ps.acmod with
  | none => simp [pocketsphinx_process_raw, acmod_set_grow, hm] at h
  | some m =>
    simp only [pocketsphinx_process_raw, if_true, acmod_set_grow, hm, Res.bind_ret] at h
    obtain ⟨tr, h1, h2, h3, h4, h5⟩ :=
      process_loop_ret E (acmod_process_raw E) (acmod_process_raw_logs E) true full fuel _ data 0
        rv st' (by unfold int_wrap; omega) h
    refine ⟨m, tr, rfl, ?_, h2, h3, ?_, h5.1 rfl⟩
    · rw [h1]; simp
    · intro hd
      obtain ⟨r, st1, c, tr', hx, ht, hc⟩ := h4 hd
      obtain ⟨m', hm', hcm⟩ := acmod_process_raw_call E _ data full r st1 c hx ht
      have hmm : m' = m := by
        have : some m' = some m := by rw [← hm']; exact hm
        exact Option.some.inj this
      subst hmm
      exact ⟨tr', by rw [hc, hcm]; rfl⟩

/-- `pocketsphinx_process_raw` with `no_search` false returns when the collaborators
make progress. -/
theorem process_raw_total (μ : W → Nat) (drained : W → Prop) (hP : Progress E μ drained)
    (st : State W) (hD : drained st.world) (hs : st.ps.search ≠ none)
    (ha : st.ps.acmod ≠ none) (data : List Int) (full : Bool) :
    ∃ (f0 : Nat) (rv : Int) (st' : State W), ∀ fuel, f0 ≤ fuel →
      pocketsphinx_process_raw E fuel st data false full = .ret rv st' := by
  obtain ⟨a, hsa⟩ := Option.ne_none_iff_exists'.1 hs
  obtain ⟨m, hma⟩ := Option.ne_none_iff_exists'.1 ha
  obtain ⟨hstep, hdrain, hraw, _⟩ := hP
  obtain ⟨f0, rv, st', h1⟩ :=
    process_loop_total E μ drained hstep hdrain (acmod_process_raw E) st.ps a hsa
      (acmod_process_raw_ok E st.ps m hma drained hraw) full (data.length + 1) data st 0
      (by omega) rfl hD
  refine ⟨f0, rv, st', ?_⟩
  intro fuel hfuel
  simp [pocketsphinx_process_raw, h1 fuel hfuel]

/-- The processing loop without search returns when a successful extraction always
consumes input. -/
theorem process_loop_total_no_search {D : Type}
    (extract : State W → List D → Bool → Res W (Int × List D))
    (p : pocketsphinx_t) (hx : ExtractOk extract p (fun _ => True)) (full : Bool) :
    ∀ (n : Nat) (data : List D) (st : State W) (acc : Int), data.length < n → st.ps = p →
      ∃ (rv : Int) (st' : State W),
        ∀ fuel, n ≤ fuel → process_loop E extract true full fuel st data acc = .ret rv st' := by
  intro n
  induction n with
  | zero => intro data st acc h; omega
  | succ n ih =>
    intro data st acc hlen hp
    by_cases hd : data = []
    · subst hd
      refine ⟨acc, st.setPs { st.ps with n_frame := uint_wrap (st.ps.n_frame + acc) }, ?_⟩
      intro fuel hfuel
      obtain ⟨f, rfl⟩ : ∃ f, fuel = f + 1 := ⟨fuel - 1, by omega⟩
      simp [process_loop]
    · obtain ⟨rv, rest, st1, hx1, hx2, hx3⟩ := hx st data full hp trivial hd
      have hlen0 : data.length ≠ 0 := fun e => hd (List.length_eq_zero.1 e)
      by_cases hrv : rv < 0
      · refine ⟨rv, st1, ?_⟩
        intro fuel hfuel
        obtain ⟨f, rfl⟩ : ∃ f, fuel = f + 1 := ⟨fuel - 1, by omega⟩
        simp [process_loop, hlen0, hx1, hrv]
      · obtain ⟨rv', st', hr1⟩ := ih rest st1 acc (by have := hx3 (by omega); omega) hx2
        refine ⟨rv', st', ?_⟩
        intro fuel hfuel
        obtain ⟨f, rfl⟩ : ∃ f, fuel = f + 1 := ⟨fuel - 1, by omega⟩
        have e2 := hr1 f (by omega)
        simp [process_loop, hlen0, hx1, hrv, e2]

/-- C2, as amended. For every call of `pocketsphinx_process_raw` with `no_search`
false that returns: the calls it made are extraction calls and search steps, an
extraction call on the whole input first when there is input, none when there is
not; if none of them returned a negative code, the result is the sum of the
positive values returned by the search steps as the 32-bit `int` counter holds it,
which is that sum whenever it is below 2^31, and the last call made, when there
was input, is a step of the active search that returned 0; otherwise the result is
the first negative code, returned by the last call made. And the call does return,
on a context with an acoustic model and an active search, whenever the
collaborators make progress. -/
theorem process_audio_error_propagation (st : State W) (data : List Int) (full_utt : Bool) :
    (∀ (fuel : Nat) (rv : Int) (st' : State W),
      pocketsphinx_process_raw E fuel st data false full_utt = .ret rv st' →
      ∃ tr : List Call, st'.trace = st.trace ++ tr ∧
        (∀ c ∈ tr, c.code ≠ none) ∧
        (data = [] → tr = []) ∧
        (data ≠ [] → ∃ (m : Nat) (tr' : List Call), st.ps.acmod = some m ∧
          tr = .acmod_process_raw (E.acmod_process_raw st.world m data full_utt).1 :: tr') ∧
        (noNegative tr → rv = int_wrap (posStepSum tr) ∧
          (posStepSum tr < 2147483648 → rv = posStepSum tr) ∧
          (data ≠ [] → ∃ (a : Nat) (pre : List Call), st.ps.search = some a ∧
            tr = pre ++ [.ps_search_step a 0])) ∧
        (¬ noNegative tr →
          ∃ pre last, tr = pre ++ [last] ∧ last.code = some rv ∧ rv < 0 ∧ noNegative pre)) ∧
    (∀ (μ : W → Nat) (drained : W → Prop), Progress E μ drained → drained st.world →
      st.ps.search ≠ none → st.ps.acmod ≠ none →
      ∃ (f0 : Nat) (rv : Int) (st' : State W), ∀ fuel, f0 ≤ fuel →
        pocketsphinx_process_raw E fuel st data false full_utt = .ret rv st') := by
  refine ⟨?_, ?_⟩
  · intro fuel rv st' h
    obtain ⟨tr, h1, h2, h3, h4, h5⟩ := process_raw_ret E st data full_utt fuel rv st' h
    obtain ⟨r1, r2, r3⟩ := h2.read
    refine ⟨tr, h1, r1, h3, h4, ?_, ?_⟩
    · intro hn
      have hrv := (r2 hn).1
      refine ⟨hrv, fun hlt => ?_, fun hd => h5 hd hn⟩
      rw [hrv, int_wrap_of_lt _ (posStepSum_nonneg tr) hlt]
    · intro hn
      obtain ⟨pre, last, ht, hl, hneg, hpre, _⟩ := r3 hn
      exact ⟨pre, last, ht, hl, hneg, hpre⟩
  · intro μ drained hP hD hs ha
    exact process_raw_total E μ drained hP st hD hs ha data full_utt

/-! ## Search selection -/

theorem find_search_found (st : State W) (kind : String) :
    ∀ (l : List (Option Nat)), (∀ e ∈ l, e ≠ none) →
      (∃ a, some a ∈ l ∧ ps_search_name E st a = kind) →
      ∃ a0, find_search E st kind l = .found a0 ∧ some a0 ∈ l ∧ ps_search_name E st a0 = kind := by
  intro l
  induction l with
  | nil => rintro _ ⟨a, ha, _⟩; simp at ha
  | cons e l ih =>
    intro hv hex
    cases e with
    | none => exact absurd rfl (hv none (List.mem_cons_self _ _))
    | some b =>
      by_cases hb : ps_search_name E st b = kind
      · exact ⟨b, by simp [find_search, hb], List.mem_cons_self _ _, hb⟩
      · obtain ⟨a, ha, hk⟩ := hex
        have ha' : some a ∈ l := by
          rcases List.mem_cons.1 ha with h | h
          · cases h; exact absurd hk hb
          · exact h
        obtain ⟨a0, h1, h2, h3⟩ :=
          ih (fun e he => hv e (List.mem_cons_of_mem _ he)) ⟨a, ha', hk⟩
        exact ⟨a0, by simp [find_search, hb, h1], List.mem_cons_of_mem _ h2, h3⟩

theorem find_search_absent (st : State W) (kind : String) :
    ∀ (l : List (Option Nat)), (∀ e ∈ l, e ≠ none) →
      (∀ a, some a ∈ l → ps_search_name E st a ≠ kind) →
      find_search E st kind l = .absent := by
  intro l
  induction l with
  | nil => intro _ _; rfl
  | cons e l ih =>
    intro hv hno
    cases e with
    | none => exact absurd rfl (hv none (List.mem_cons_self _ _))
    | some b =>
      have hb := hno b (List.mem_cons_self _ _)
      simp only [find_search, hb, if_false]
      exact ih (fun e he => hv e (List.mem_cons_of_mem _ he))
        (fun a ha => hno a (List.mem_cons_of_mem _ ha))

/-- C6, as amended. On a context whose registry holds only valid searches:
when a search of the requested kind is registered, `pocketsphinx_update_lmset` and
`pocketsphinx_update_fsgset` make one collaborator call, the reinit of a registered
search of that kind, and leave the registry as it was; if the reinit succeeds
that search becomes the active one and the call returns its handle (its
language-model set, respectively the search itself), and if it fails the call
returns NULL and the context is unchanged. When no search of that kind is
registered and the construction succeeds, the new search is put in front of the
registry and made active. -/
theorem update_search_reuses_registered (st : State W)
    (hv : ∀ e ∈ st.ps.searches, e ≠ none) :
    ((∃ a, some a ∈ st.ps.searches ∧ E.search_name st.world a = "ngram") →
      ∃ a0 st', some a0 ∈ st.ps.searches ∧ E.search_name st.world a0 = "ngram" ∧
        pocketsphinx_update_lmset E st =
          .ret (if (E.search_reinit st.world a0).1 < 0 then none
                else E.ngram_lmset (E.search_reinit st.world a0).2 a0) st' ∧
        st'.trace = st.trace ++ [.ps_search_reinit a0 (E.search_reinit st.world a0).1] ∧
        st'.world = (E.search_reinit st.world a0).2 ∧
        st'.ps = (if (E.search_reinit st.world a0).1 < 0 then st.ps
                  else { st.ps with search := some a0 })) ∧
    ((∃ a, some a ∈ st.ps.searches ∧ E.search_name st.world a = "fsg") →
      ∃ a0 st', some a0 ∈ st.ps.searches ∧ E.search_name st.world a0 = "fsg" ∧
        pocketsphinx_update_fsgset E st =
          .ret (if (E.search_reinit st.world a0).1 < 0 then none else some a0) st' ∧
        st'.trace = st.trace ++ [.ps_search_reinit a0 (E.search_reinit st.world a0).1] ∧
        st'.world = (E.search_reinit st.world a0).2 ∧
        st'.ps = (if (E.search_reinit st.world a0).1 < 0 then st.ps
                  else { st.ps with search := some a0 })) ∧
    ((∀ a, some a ∈ st.ps.searches → E.search_name st.world a ≠ "ngram") →
      ∀ s, (E.ngram_search_init st.world st.ps.config st.ps.acmod st.ps.dict).1 = some s →
      ∃ st', pocketsphinx_update_lmset E st =
          .ret (E.ngram_lmset
            (E.ngram_search_init st.world st.ps.config st.ps.acmod st.ps.dict).2 s) st' ∧
        st'.trace = st.trace ++ [.ngram_search_init (some s)] ∧
        st'.ps = { st.ps with searches := some s :: st.ps.searches, search := some s }) ∧
    ((∀ a, some a ∈ st.ps.searches → E.search_name st.world a ≠ "fsg") →
      ∀ s, (E.fsg_search_init st.world st.ps.config st.ps.acmod st.ps.dict).1 = some s →
      ∃ st', pocketsphinx_update_fsgset E st = .ret (some s) st' ∧
        st'.trace = st.trace ++ [.fsg_search_init (some s)] ∧
        st'.ps = { st.ps with searches := some s :: st.ps.searches, search := some s }) := by
  refine ⟨?_, ?_, ?_, ?_⟩
  · intro hex
    obtain ⟨a0, h1, h2, h3⟩ := find_search_found E st "ngram" st.ps.searches hv hex
    by_cases hr : (E.search_reinit st.world a0).1 < 0
    · exact ⟨a0, _, h2, h3, by simp [pocketsphinx_update_lmset, h1, ps_search_reinit, hr]; rfl,
        by simp, by simp, by simp [hr]⟩
    · exact ⟨a0, _, h2, h3, by simp [pocketsphinx_update_lmset, h1, ps_search_reinit, hr]; rfl,
        by simp, by simp, by simp [hr]⟩
  · intro hex
    obtain ⟨a0, h1, h2, h3⟩ := find_search_found E st "fsg" st.ps.searches hv hex
    by_cases hr : (E.search_reinit st.world a0).1 < 0
    · exact ⟨a0, _, h2, h3, by simp [pocketsphinx_update_fsgset, h1, ps_search_reinit, hr]; rfl,
        by simp, by simp, by simp [hr]⟩
    · exact ⟨a0, _, h2, h3, by simp [pocketsphinx_update_fsgset, h1, ps_search_reinit, hr]; rfl,
        by simp, by simp, by simp [hr]⟩
  · intro hno s hs
    have h1 := find_search_absent E st "ngram" st.ps.searches hv hno
    exact ⟨_, by simp [pocketsphinx_update_lmset, h1, hs]; rfl, by simp [hs], by simp⟩
  · intro hno s hs
    have h1 := find_search_absent E st "fsg" st.ps.searches hv hno
    exact ⟨_, by simp [pocketsphinx_update_fsgset, h1, hs]; rfl, by simp [hs], by simp⟩

/-! ## Utterance identifiers -/

theorem digitChar_value (d : Nat) (h : d < 10) : (Nat.digitChar d).toNat - 48 = d := by
  interval_cases d <;> rfl

theorem foldl_toDigitsCore (fuel : Nat) :
    ∀ (n : Nat) (ds : List Char), n < fuel →
      (Nat.toDigitsCore 10 fuel n ds).foldl (fun acc c => 10 * acc + (c.toNat - 48)) 0
        = ds.foldl (fun acc c => 10 * acc + (c.toNat - 48)) n := by
  induction fuel with
  | zero => intro n ds h; omega
  | succ fuel ih =>
    intro n ds h
    have hd := digitChar_value (n % 10) (Nat.mod_lt _ (by decide))
    by_cases h0 : n / 10 = 0
    · have hn : n % 10 = n := by omega
      simp only [Nat.toDigitsCore, h0, if_true, List.foldl_cons, hd]
      rw [hn]; simp
    · simp only [Nat.toDigitsCore, h0, if_false]
      rw [ih (n / 10) _ (by omega)]
      simp only [List.foldl_cons, hd]
      congr 1
      omega

theorem foldl_zeros (k : Nat) (l : List Char) :
    (List.replicate k '0' ++ l).foldl (fun acc c => 10 * acc + (c.toNat - 48)) 0
      = l.foldl (fun acc c => 10 * acc + (c.toNat - 48)) 0 := by
  induction k with
  | zero => simp
  | succ k ih =>
    rw [List.replicate_succ, List.cons_append, List.foldl_cons]
    exact ih

theorem decimalValue_sprintf_09u (n : Nat) : decimalValue (sprintf_09u n) = n := by
  unfold decimalValue sprintf_09u
  simp only [List.leftpad, Nat.toDigits]
  rw [foldl_zeros, foldl_toDigitsCore (n + 1) n [] (by omega)]
  rfl

theorem length_sprintf_09u (n : Nat) :
    9 ≤ (sprintf_09u n).length ∧ (n < 10 ^ 9 → (sprintf_09u n).length = 9) := by
  unfold sprintf_09u
  simp only [String.length, List.leftpad, List.length_append, List.length_replicate]
  refine ⟨by omega, fun h => ?_⟩
  have := Nat.toDigitsCore_length 10 (by decide) (n + 1) n 9 h (by decide)
  simp only [Nat.toDigits]
  omega

theorem Res.leavesPs_bind {α β : Type} (r : Res W α) (f : α → State W → Res W β)
    (p : pocketsphinx_t) (h1 : r.leavesPs p)
    (h2 : ∀ a s, s.ps = p → (f a s).leavesPs p) : (r.bind f).leavesPs p := by
  obtain ⟨st', hs, hp⟩ := h1
  cases r with
  | ret a s =>
    simp only [Res.state, Option.some.injEq] at hs
    subst hs
    exact h2 a s hp
  | fault s => exact ⟨st', hs, hp⟩
  | nofuel => simp [Res.state] at hs

theorem acmod_start_utt_leavesPs (st : State W) : (acmod_start_utt E st).leavesPs st.ps := by
  unfold acmod_start_utt
  cases st.ps.acmod with
  | none => exact ⟨st, rfl, rfl⟩
  | some m => exact ⟨_, rfl, rfl⟩

theorem ps_search_start_leavesPs (st : State W) (s : Option Nat) :
    (ps_search_start E st s).leavesPs st.ps := by
  unfold ps_search_start
  cases s with
  | none => exact ⟨st, rfl, rfl⟩
  | some a => exact ⟨_, rfl, rfl⟩

theorem start_utt_leavesPs (st : State W) (uttid : Option String) :
    (pocketsphinx_start_utt E st uttid).leavesPs
      (match uttid with
        | some u => { st.ps with uttid := some u }
        | none => { st.ps with uttid := some (sprintf_09u st.ps.uttno),
                               uttno := (st.ps.uttno + 1) % 2 ^ UINT_BITS }) := by
  unfold pocketsphinx_start_utt
  cases uttid with
  | none =>
    apply Res.leavesPs_bind _ _ _ (acmod_start_utt_leavesPs E _)
    intro rv s hs
    by_cases h : rv < 0
    · simp only [h, if_true]; exact ⟨s, rfl, hs⟩
    · simp only [h, if_false]
      rw [← hs]; exact ps_search_start_leavesPs E s _
  | some u =>
    apply Res.leavesPs_bind _ _ _ (acmod_start_utt_leavesPs E _)
    intro rv s hs
    by_cases h : rv < 0
    · simp only [h, if_true]; exact ⟨s, rfl, hs⟩
    · simp only [h, if_false]
      rw [← hs]; exact ps_search_start_leavesPs E s _

/-- C7, as amended. `pocketsphinx_start_utt` leaves a state, whether it returns or
faults at the dispatch of a missing search, in which: with an explicit identifier
the utterance identifier is that string and the counter is unchanged; with no
identifier the utterance identifier is `sprintf("%09u")` of the counter `n`, a
string of at least 9 characters (exactly 9 below 10^9) whose decimal value is `n`,
and the counter is `n + 1` modulo 2^32, that is `n + 1` unless `n = 2^32 - 1`.
The identifier is not NULL afterwards, and identifiers generated from a smaller
counter have a smaller value. -/
theorem start_utt_sets_uttid (st : State W) :
    (∀ u, ∃ st', (pocketsphinx_start_utt E st (some u)).state = some st' ∧
      st'.ps.uttid = some u ∧ st'.ps.uttno = st.ps.uttno) ∧
    (∃ st', (pocketsphinx_start_utt E st none).state = some st' ∧
      st'.ps.uttid = some (sprintf_09u st.ps.uttno) ∧
      st'.ps.uttno = (st.ps.uttno + 1) % 2 ^ 32 ∧
      (st.ps.uttno + 1 < 2 ^ 32 → st'.ps.uttno = st.ps.uttno + 1)) ∧
    (∀ n, 9 ≤ (sprintf_09u n).length ∧ (n < 10 ^ 9 → (sprintf_09u n).length = 9) ∧
      decimalValue (sprintf_09u n) = n) ∧
    (∀ n m, n < m → decimalValue (sprintf_09u n) < decimalValue (sprintf_09u m)) := by
  refine ⟨?_, ?_, ?_, ?_⟩
  · intro u
    obtain ⟨st', h1, h2⟩ := start_utt_leavesPs E st (some u)
    exact ⟨st', h1, by rw [h2], by rw [h2]⟩
  · obtain ⟨st', h1, h2⟩ := start_utt_leavesPs E st none
    refine ⟨st', h1, by rw [h2], by rw [h2]; rfl, fun h => ?_⟩
    rw [h2]
    exact Nat.mod_eq_of_lt h
  · intro n
    exact ⟨(length_sprintf_09u n).1, (length_sprintf_09u n).2, decimalValue_sprintf_09u n⟩
  · intro n m h
    rw [decimalValue_sprintf_09u, decimalValue_sprintf_09u]
    exact h


/-! ## Construction -/

theorem free_searches_ps :
    ∀ (l : List (Option Nat)) (st : State W) (u : Unit) (st' : State W),
      free_searches E st l = .ret u st' → st'.ps = st.ps := by
  intro l
  induction l with
  | nil =>
    intro st u st' h
    simp only [free_searches, Res.ret.injEq] at h
    rw [← h.2]
  | cons e l ih =>
    intro st u st' h
    cases e with
    | none => simp [free_searches, ps_search_free] at h
    | some a =>
      simp only [free_searches, ps_search_free, Res.bind_ret] at h
      rw [ih _ u st' h]
      rfl

theorem reinit_searches_ps (st : State W) (cfg : cmd_ln_t) (rv : Int) (st' : State W)
    (h : reinit_searches E st cfg = .ret rv st') :
    rv = 0 ∧ st'.ps.acmod = st.ps.acmod ∧ st'.ps.uttid = st.ps.uttid := by
  unfold reinit_searches at h
  by_cases hl : st.ps.searches = []
  · simp only [hl, ne_eq, not_true_eq_false, if_false, Res.bind_ret] at h
    split_ifs at h <;> (simp only [Res.ret.injEq] at h; obtain ⟨h1, h2⟩ := h; subst h2; simp [h1])
  · simp only [ne_eq, hl, not_false_eq_true, if_true] at h
    cases hf : free_searches E st st.ps.searches with
    | nofuel => simp [hf] at h
    | fault s => simp [hf] at h
    | ret u s1 =>
      have hp := free_searches_ps E _ _ _ _ hf
      simp only [hf, Res.bind_ret] at h
      split_ifs at h <;>
        (simp only [Res.ret.injEq] at h; obtain ⟨h1, h2⟩ := h; subst h2; simp [h1, hp])

theorem reinit_logmath_ps (st : State W) (cfg : cmd_ln_t) :
    (reinit_logmath st cfg).ps.acmod = st.ps.acmod ∧
    (reinit_logmath st cfg).ps.uttid = st.ps.uttid := by
  unfold reinit_logmath
  simp only
  split_ifs <;> simp

theorem reinit_acmod_ps (st : State W) (cfg : cmd_ln_t) :
    (reinit_acmod E st cfg).ps.uttid = st.ps.uttid := by
  unfold reinit_acmod
  simp only
  split_ifs <;> simp

theorem reinit_grow_ps (st : State W) (cfg : cmd_ln_t) (a : Nat) :
    (reinit_grow E st cfg a).ps = st.ps := by
  unfold reinit_grow
  split_ifs <;> simp

theorem reinit_dict_ps (st : State W) (cfg : cmd_ln_t) (a : Nat) :
    (reinit_dict E st cfg a).ps.acmod = st.ps.acmod ∧
    (reinit_dict E st cfg a).ps.uttid = st.ps.uttid := by
  unfold reinit_dict
  simp only
  split_ifs <;> simp

theorem reinit_models_ps (st : State W) (cfg : cmd_ln_t) (rv : Int) (st' : State W)
    (h : reinit_models E st cfg = .ret rv st') (hrv : ¬ rv < 0) :
    st'.ps.acmod ≠ none ∧ st'.ps.uttid = st.ps.uttid := by
  unfold reinit_models at h
  simp only at h
  split at h
  · simp only [Res.ret.injEq] at h
    exact absurd (by omega) hrv
  · rename_i a heq
    split at h
    · simp only [Res.ret.injEq] at h
      exact absurd (by omega) hrv
    · obtain ⟨_, h2, h3⟩ := reinit_searches_ps E _ _ _ _ h
      constructor
      · rw [h2, (reinit_dict_ps E _ cfg a).1, reinit_grow_ps, heq]; simp
      · rw [h3, (reinit_dict_ps E _ cfg a).2, reinit_grow_ps, reinit_acmod_ps,
          (reinit_logmath_ps st cfg).2]

theorem addAll_uttid (fe : String → Bool) (h : String) :
    ∀ (l : List (String × String)) (ps ps' : pocketsphinx_t),
      addAll fe h l ps = some ps' → ps'.uttid = ps.uttid := by
  intro l
  induction l with
  | nil => intro ps ps' e; simp only [addAll, Option.some.injEq] at e; rw [e]
  | cons p l ih =>
    intro ps ps' e
    simp only [addAll] at e
    cases h1 : pocketsphinx_add_file fe ps p.1 h p.2 with
    | none => simp [h1] at e
    | some ps1 =>
      simp only [h1, Option.some_bind] at e
      rw [ih ps1 ps' e]
      unfold pocketsphinx_add_file at h1
      cases hc : ps.config with
      | none => simp [hc] at h1
      | some c =>
        simp only [hc] at h1
        split_ifs at h1 <;> (simp only [Option.some.injEq] at h1; rw [← h1])

theorem init_defaults_uttid (fe : String → Bool) (ps ps' : pocketsphinx_t)
    (h : pocketsphinx_init_defaults fe ps = some ps') : ps'.uttid = ps.uttid := by
  cases hc : ps.config with
  | none => simp [pocketsphinx_init_defaults, hc] at h
  | some c =>
    cases hh : cmd_ln_str_r c "-hmm" with
    | none =>
      simp only [pocketsphinx_init_defaults, hc, hh, Option.some.injEq] at h
      rw [h]
    | some d =>
      rw [init_defaults_eq_addAll fe ps c d hc hh] at h
      exact addAll_uttid fe d _ _ _ h

theorem reinit_searches_n_frame (st : State W) (cfg : cmd_ln_t) (rv : Int) (st' : State W)
    (h : reinit_searches E st cfg = .ret rv st') : st'.ps.n_frame = st.ps.n_frame := by
  unfold reinit_searches at h
  by_cases hl : st.ps.searches = []
  · simp only [hl, ne_eq, not_true_eq_false, if_false, Res.bind_ret] at h
    split_ifs at h <;> (simp only [Res.ret.injEq] at h; obtain ⟨h1, h2⟩ := h; subst h2; simp)
  · simp only [ne_eq, hl, not_false_eq_true, if_true] at h
    cases hf : free_searches E st st.ps.searches with
    | nofuel => simp [hf] at h
    | fault s => simp [hf] at h
    | ret u s1 =>
      have hp := free_searches_ps E _ _ _ _ hf
      simp only [hf, Res.bind_ret] at h
      split_ifs at h <;>
        (simp only [Res.ret.injEq] at h; obtain ⟨h1, h2⟩ := h; subst h2; simp [hp])

theorem reinit_logmath_n_frame (st : State W) (cfg : cmd_ln_t) :
    (reinit_logmath st cfg).ps.n_frame = st.ps.n_frame := by
  unfold reinit_logmath
  simp only
  split_ifs <;> simp

theorem reinit_acmod_n_frame (st : State W) (cfg : cmd_ln_t) :
    (reinit_acmod E st cfg).ps.n_frame = st.ps.n_frame := by
  unfold reinit_acmod
  simp only
  split_ifs <;> simp

theorem reinit_dict_n_frame (st : State W) (cfg : cmd_ln_t) (a : Nat) :
    (reinit_dict E st cfg a).ps.n_frame = st.ps.n_frame := by
  unfold reinit_dict
  simp only
  split_ifs <;> simp

theorem reinit_models_n_frame (st : State W) (cfg : cmd_ln_t) (rv : Int) (st' : State W)
    (h : reinit_models E st cfg = .ret rv st') (hrv : ¬ rv < 0) :
    st'.ps.n_frame = st.ps.n_frame := by
  unfold reinit_models at h
  simp only at h
  split at h
  · simp only [Res.ret.injEq] at h
    exact absurd (by omega) hrv
  · rename_i a heq
    split at h
    · simp only [Res.ret.injEq] at h
      exact absurd (by omega) hrv
    · rw [reinit_searches_n_frame E _ _ _ _ h, reinit_dict_n_frame, reinit_grow_ps,
        reinit_acmod_n_frame, reinit_logmath_n_frame]

theorem addAll_n_frame (fe : String → Bool) (h : String) :
    ∀ (l : List (String × String)) (ps ps' : pocketsphinx_t),
      addAll fe h l ps = some ps' → ps'.n_frame = ps.n_frame := by
  intro l
  induction l with
  | nil => intro ps ps' e; simp only [addAll, Option.some.injEq] at e; rw [e]
  | cons p l ih =>
    intro ps ps' e
    simp only [addAll] at e
    cases h1 : pocketsphinx_add_file fe ps p.1 h p.2 with
    | none => simp [h1] at e
    | some ps1 =>
      simp only [h1, Option.some_bind] at e
      rw [ih ps1 ps' e]
      unfold pocketsphinx_add_file at h1
      cases hc : ps.config with
      | none => simp [hc] at h1
      | some c =>
        simp only [hc] at h1
        split_ifs at h1 <;> (simp only [Option.some.injEq] at h1; rw [← h1])

theorem init_defaults_n_frame (fe : String → Bool) (ps ps' : pocketsphinx_t)
    (h : pocketsphinx_init_defaults fe ps = some ps') : ps'.n_frame = ps.n_frame := by
  cases hc : ps.config with
  | none => simp [pocketsphinx_init_defaults, hc] at h
  | some c =>
    cases hh : cmd_ln_str_r c "-hmm" with
    | none =>
      simp only [pocketsphinx_init_defaults, hc, hh, Option.some.injEq] at h
      rw [h]
    | some d =>
      rw [init_defaults_eq_addAll fe ps c d hc hh] at h
      exact addAll_n_frame fe d _ _ _ h

/-- A context returned by `pocketsphinx_init` has counted no frame yet. -/
theorem init_fresh_n_frame (w : W) (config : Option cmd_ln_t) (st : State W)
    (h : pocketsphinx_init E w config = .ret true st) : st.ps.n_frame = 0 := by
  unfold pocketsphinx_init at h
  cases hr : pocketsphinx_reinit E { ps := ps_calloc, world := w, trace := [] } config with
  | nofuel => simp [hr] at h
  | fault s => simp [hr] at h
  | ret rv s =>
    simp only [hr, Res.bind_ret] at h
    by_cases hrv : rv < 0
    · simp only [hrv, if_true] at h
      cases hf : pocketsphinx_free E s with
      | nofuel => simp [hf] at h
      | fault s => simp [hf] at h
      | ret u s1 => simp [hf] at h
    · simp only [hrv, if_false, Res.ret.injEq, true_and] at h
      subst h
      unfold pocketsphinx_reinit at hr
      simp only at hr
      split at hr
      · simp at hr
      · rename_i ps2 hd
        split at hr
        · rename_i c0 cfg hcfg
          rw [reinit_models_n_frame E _ _ _ _ hr hrv, State.setPs_ps,
            init_defaults_n_frame _ _ _ hd]
          split <;> (try split_ifs) <;> rfl
        · simp at hr

/-- A context returned by `pocketsphinx_init` has an acoustic model and no
utterance identifier yet. -/
theorem init_fresh (w : W) (config : Option cmd_ln_t) (st : State W)
    (h : pocketsphinx_init E w config = .ret true st) :
    st.ps.acmod ≠ none ∧ st.ps.uttid = none := by
  unfold pocketsphinx_init at h
  cases hr : pocketsphinx_reinit E { ps := ps_calloc, world := w, trace := [] } config with
  | nofuel => simp [hr] at h
  | fault s => simp [hr] at h
  | ret rv s =>
    simp only [hr, Res.bind_ret] at h
    by_cases hrv : rv < 0
    · simp only [hrv, if_true] at h
      cases hf : pocketsphinx_free E s with
      | nofuel => simp [hf] at h
      | fault s => simp [hf] at h
      | ret u s1 => simp [hf] at h
    · simp only [hrv, if_false, Res.ret.injEq, true_and] at h
      subst h
      unfold pocketsphinx_reinit at hr
      simp only at hr
      split at hr
      · simp at hr
      · rename_i ps2 hd
        split at hr
        · rename_i c0 cfg hcfg
          obtain ⟨h1, h2⟩ := reinit_models_ps E _ _ _ _ hr hrv
          refine ⟨h1, ?_⟩
          rw [h2, State.setPs_ps, init_defaults_uttid _ _ _ hd]
          split <;> (try split_ifs) <;> rfl
        · simp at hr


/-! ## Processing before the utterance is started -/

/-- With no input and no frame counted yet, the processing loop returns 0 and
leaves the state as it is. -/
theorem process_loop_nil {D : Type} (extract : State W → List D → Bool → Res W (Int × List D))
    (no_search full : Bool) (f : Nat) (s : State W) (hn : s.ps.n_frame = 0) :
    process_loop E extract no_search full (f + 1) s [] 0 = .ret 0 s := by
  have hs : s.setPs { s.ps with n_frame := uint_wrap 0 } = s := by
    obtain ⟨ps, wd, tr⟩ := s
    obtain ⟨c, ss, l, a, d, sr, se, u, un, nf⟩ := ps
    simp only at hn
    subst hn
    rfl
  simp only [process_loop, List.length_nil, if_true, add_zero, hn, hs]

/-- `pocketsphinx_process_raw` with `no_search` true returns when a successful
extraction always consumes input. -/
theorem process_raw_total_no_search
    (hraw : ∀ w m data full, data ≠ [] → 0 ≤ (E.acmod_process_raw w m data full).1 →
      (E.acmod_process_raw w m data full).2.1.length < data.length)
    (st : State W) (m : Nat) (ha : st.ps.acmod = some m) (data : List Int) (full : Bool) :
    ∃ (f0 : Nat) (rv : Int) (st' : State W), ∀ fuel, f0 ≤ fuel →
      pocketsphinx_process_raw E fuel st data true full = .ret rv st' := by
  obtain ⟨rv, st', h1⟩ :=
    process_loop_total_no_search E (acmod_process_raw E) st.ps
      (acmod_process_raw_ok E st.ps m ha (fun _ => True) (fun w m data full _ => hraw w m data full))
      full (data.length + 1) data
      ({ st with world := E.acmod_set_grow st.world m true }.log (.acmod_set_grow true)) 0
      (by omega) rfl
  refine ⟨data.length + 1, rv, st', ?_⟩
  intro fuel hfuel
  simp [pocketsphinx_process_raw, acmod_set_grow, ha, h1 fuel hfuel]

/-- C9, as amended. `pocketsphinx_process_raw` makes no life-cycle check. On every
context just returned by `pocketsphinx_init`, on which no utterance was ever
started (no identifier, no frame counted): with no samples the call returns 0,
changing nothing when `no_search` is false and only making the feature buffer
growable when it is true. With samples, a call that returns has processed them:
after making the buffer growable when `no_search` is true, its first call is the
extraction call of the acoustic model on those samples, and every further call is
an extraction call or a search step. When one of those calls returned a negative
code, the result is that code, returned by the last call made, the first negative
one, and the context is unchanged; when none did, the result is the sum of the
positive step values as the 32-bit `int` counter holds it (0 when `no_search` is
true), stored as the frame count of the context, and with `no_search` false the
last call made is a step of the active search that returned 0. The call does
return whenever the collaborators make progress: with `no_search` false when a
search is active, with `no_search` true when a successful extraction consumes
input. -/
theorem process_audio_before_start_utt (w : W) (config : Option cmd_ln_t) (st : State W)
    (hinit : pocketsphinx_init E w config = .ret true st) (full_utt : Bool) :
    st.ps.uttid = none ∧ st.ps.n_frame = 0 ∧
    ∃ m : Nat, st.ps.acmod = some m ∧
    (∀ fuel, 1 ≤ fuel → pocketsphinx_process_raw E fuel st [] false full_utt = .ret 0 st) ∧
    (∀ fuel, 1 ≤ fuel → pocketsphinx_process_raw E fuel st [] true full_utt =
      .ret 0 ({ st with world := E.acmod_set_grow st.world m true }.log (.acmod_set_grow true))) ∧
    (∀ (data : List Int) (fuel : Nat) (rv : Int) (st' : State W), data ≠ [] →
      pocketsphinx_process_raw E fuel st data false full_utt = .ret rv st' →
      ∃ tr tr' : List Call,
        tr = .acmod_process_raw (E.acmod_process_raw st.world m data full_utt).1 :: tr' ∧
        st'.trace = st.trace ++ tr ∧
        (∀ c ∈ tr, c.code ≠ none) ∧
        (noNegative tr → rv = int_wrap (posStepSum tr) ∧
          st'.ps = { st.ps with n_frame := uint_wrap rv } ∧
          ∃ (a : Nat) (pre : List Call), st.ps.search = some a ∧
            tr = pre ++ [.ps_search_step a 0]) ∧
        (¬ noNegative tr → ∃ pre last, tr = pre ++ [last] ∧ last.code = some rv ∧ rv < 0 ∧
          noNegative pre ∧ st'.ps = st.ps)) ∧
    (∀ (data : List Int) (fuel : Nat) (rv : Int) (st' : State W), data ≠ [] →
      pocketsphinx_process_raw E fuel st data true full_utt = .ret rv st' →
      ∃ tr tr' : List Call,
        tr = .acmod_process_raw
          (E.acmod_process_raw (E.acmod_set_grow st.world m true) m data full_utt).1 :: tr' ∧
        st'.trace = st.trace ++ .acmod_set_grow true :: tr ∧
        (∀ c ∈ tr, c.code ≠ none) ∧
        (noNegative tr → rv = 0 ∧ st'.ps = st.ps) ∧
        (¬ noNegative tr → ∃ pre last, tr = pre ++ [last] ∧ last.code = some rv ∧ rv < 0 ∧
          noNegative pre ∧ st'.ps = st.ps)) ∧
    (∀ (μ : W → Nat) (drained : W → Prop), Progress E μ drained → drained st.world →
      st.ps.search ≠ none → ∀ data : List Int,
      ∃ (f0 : Nat) (rv : Int) (st' : State W), ∀ fuel, f0 ≤ fuel →
        pocketsphinx_process_raw E fuel st data false full_utt = .ret rv st') ∧
    ((∀ w m data full, data ≠ [] → 0 ≤ (E.acmod_process_raw w m data full).1 →
        (E.acmod_process_raw w m data full).2.1.length < data.length) →
      ∀ data : List Int,
      ∃ (f0 : Nat) (rv : Int) (st' : State W), ∀ fuel, f0 ≤ fuel →
        pocketsphinx_process_raw E fuel st data true full_utt = .ret rv st') := by
  obtain ⟨hac, hid⟩ := init_fresh E w config st hinit
  have hnf := init_fresh_n_frame E w config st hinit
  obtain ⟨m, hma⟩ := Option.ne_none_iff_exists'.1 hac
  have hps : ({ st.ps with n_frame := uint_wrap 0 } : pocketsphinx_t) = st.ps := by
    have h0 : uint_wrap 0 = st.ps.n_frame := by rw [hnf]; rfl
    rw [h0]
  refine ⟨hid, hnf, m, hma, ?_, ?_, ?_, ?_, ?_, ?_⟩
  · intro fuel hfuel
    obtain ⟨f, rfl⟩ : ∃ f, fuel = f + 1 := ⟨fuel - 1, by omega⟩
    simp only [pocketsphinx_process_raw, Bool.false_eq_true, if_false, Res.bind_ret]
    exact process_loop_nil E _ false full_utt f st hnf
  · intro fuel hfuel
    obtain ⟨f, rfl⟩ : ∃ f, fuel = f + 1 := ⟨fuel - 1, by omega⟩
    simp only [pocketsphinx_process_raw, if_true, acmod_set_grow, hma, Res.bind_ret]
    exact process_loop_nil E _ true full_utt f _ hnf
  · intro data fuel rv st' hd h
    obtain ⟨tr, h1, h2, _, h4, h5⟩ := process_raw_ret E st data full_utt fuel rv st' h
    obtain ⟨m', tr', hm', ht⟩ := h4 hd
    have hmm : m' = m := by
      have : some m' = some m := by rw [← hm']; exact hma
      exact Option.some.inj this
    subst hmm
    obtain ⟨r1, r2, r3⟩ := h2.read
    refine ⟨tr, tr', ht, h1, r1, ?_, r3⟩
    intro hn
    obtain ⟨e1, e2⟩ := r2 hn
    refine ⟨e1, ?_, h5 hd hn⟩
    rw [e2, hnf, zero_add]
  · intro data fuel rv st' hd h
    obtain ⟨m', tr, hm', h1, h2, _, h4, h5⟩ :=
      process_raw_ret_no_search E st data full_utt fuel rv st' h
    have hmm : m' = m := by
      have : some m' = some m := by rw [← hm']; exact hma
      exact Option.some.inj this
    subst hmm
    obtain ⟨tr', ht⟩ := h4 hd
    obtain ⟨r1, r2, r3⟩ := h2.read
    refine ⟨tr, tr', ht, h1, r1, ?_, r3⟩
    intro hn
    obtain ⟨e1, e2⟩ := r2 hn
    have hrv : rv = 0 := by rw [e1, h5]; rfl
    refine ⟨hrv, ?_⟩
    rw [e2, hrv, hnf, add_zero, hps]
  · intro μ drained hP hD hs data
    exact process_raw_total E μ drained hP st hD hs hac data full_utt
  · intro hraw data
    exact process_raw_total_no_search E hraw st m hma data full_utt

/-- C9 as stated fails: on the freshly constructed example context, on which no
utterance was ever started, `pocketsphinx_process_raw` returns 0 for an empty
buffer and processes three samples, returning 3, the number of frames searched. -/
theorem process_audio_before_start_utt_not_rejected :
    pocketsphinx_init toy Toy.fresh (some toyConfig) = .ret true toyReady ∧
    toyReady.ps.uttid = none ∧
    (pocketsphinx_process_raw toy 5 toyReady [] false false).value = some 0 ∧
    (pocketsphinx_process_raw toy 5 toyReady [1, 2, 3] false false).value = some 3 ∧
    ((pocketsphinx_process_raw toy 5 toyReady [1, 2, 3] false false).stateD toyReady).ps.n_frame
      = 3 := by
  decide

theorem toy_step_decreases (w : Toy) (a : Nat) (h : 0 < (toy.search_step w a).1) :
    (toy.search_step w a).2.pending < w.pending := by
  by_cases hp : 0 < w.pending
  · simp only [toy, hp, if_true]; omega
  · exfalso
    simp only [toy, hp, if_false] at h
    split_ifs at h <;> omega

theorem toy_raw_consumes (w : Toy) (m : Nat) (data : List Int) (full : Bool)
    (hd : data ≠ []) (h : 0 ≤ (toy.acmod_process_raw w m data full).1) :
    (toy.acmod_process_raw w m data full).2.1.length < data.length := by
  cases data with
  | nil => exact absurd rfl hd
  | cons x rest =>
    by_cases hx : x < 0
    · exfalso
      simp only [toy, hx, if_true] at h
      omega
    · cases full
      · simp [toy, hx]; omega
      · simp [toy, hx]


/-! ## End of the utterance -/

theorem end_utt_loop_ps :
    ∀ (fuel : Nat) (st st' : State W),
      (end_utt_loop E fuel st).state = some st' → st'.ps = st.ps := by
  intro fuel
  induction fuel with
  | zero => intro st st' h; simp [end_utt_loop, Res.state] at h
  | succ fuel ih =>
    intro st st' h
    cases hs : st.ps.search with
    | none =>
      simp only [end_utt_loop, ps_search_step, hs, Res.bind_fault, Res.state,
        Option.some.injEq] at h
      rw [← h]
    | some a =>
      simp only [end_utt_loop, ps_search_step, hs, Res.bind_ret] at h
      split_ifs at h
      · rw [ih _ _ h]; rfl
      · simp only [Res.state, Option.some.injEq] at h
        rw [← h]; rfl

/-- `pocketsphinx_end_utt` never changes the context: the values returned by the
search steps of its drain are dropped, and `ps->n_frame` stays as it was. -/
theorem end_utt_keeps_context (fuel : Nat) (st st' : State W)
    (h : (pocketsphinx_end_utt E fuel st).state = some st') : st'.ps = st.ps := by
  unfold pocketsphinx_end_utt at h
  cases ha : st.ps.acmod with
  | none =>
    simp only [acmod_end_utt, ha, Res.bind_fault, Res.state, Option.some.injEq] at h
    rw [← h]
  | some m =>
    simp only [acmod_end_utt, ha, Res.bind_ret] at h
    cases hl : end_utt_loop E fuel
        ({ st with world := (E.acmod_end_utt st.world m).2 }.log
          (.acmod_end_utt (E.acmod_end_utt st.world m).1)) with
    | nofuel => simp [hl, Res.state] at h
    | fault s =>
      have hp := end_utt_loop_ps E fuel _ s (by rw [hl]; rfl)
      simp only [hl, Res.bind_fault, Res.state, Option.some.injEq] at h
      rw [← h, hp]; rfl
    | ret rv s =>
      have hp := end_utt_loop_ps E fuel _ s (by rw [hl]; rfl)
      simp only [hl, Res.bind_ret] at h
      split_ifs at h
      · simp only [Res.state, Option.some.injEq] at h
        rw [← h, State.log_ps, hp]; rfl
      · cases hs : s.ps.search with
        | none =>
          simp only [ps_search_finish, hs, Res.bind_fault, Res.state, Option.some.injEq] at h
          rw [← h, hp]; rfl
        | some a =>
          simp only [ps_search_finish, hs, Res.bind_ret, Res.state, Option.some.injEq] at h
          rw [← h]
          simp only [State.log_ps]
          rw [hp]; rfl

/-! ## Further facts on the life-cycle functions -/

/-- The error propagation of `pocketsphinx_process_cep` is that of
`pocketsphinx_process_raw`. -/
theorem process_features_error_propagation (st : State W) (data : List (List Int))
    (full_utt : Bool) :
    (∀ (fuel : Nat) (rv : Int) (st' : State W),
      pocketsphinx_process_cep E fuel st data false full_utt = .ret rv st' →
      ∃ tr : List Call, st'.trace = st.trace ++ tr ∧
        (∀ c ∈ tr, c.code ≠ none) ∧
        (noNegative tr → rv = int_wrap (posStepSum tr)) ∧
        (¬ noNegative tr →
          ∃ pre last, tr = pre ++ [last] ∧ last.code = some rv ∧ rv < 0 ∧ noNegative pre)) ∧
    (∀ (μ : W → Nat) (drained : W → Prop), Progress E μ drained → drained st.world →
      st.ps.search ≠ none → st.ps.acmod ≠ none →
      ∃ (f0 : Nat) (rv : Int) (st' : State W), ∀ fuel, f0 ≤ fuel →
        pocketsphinx_process_cep E fuel st data false full_utt = .ret rv st') := by
  refine ⟨?_, ?_⟩
  · intro fuel rv st' h
    simp only [pocketsphinx_process_cep, Bool.false_eq_true, if_false, Res.bind_ret] at h
    obtain ⟨tr, h1, h2, _⟩ :=
      process_loop_ret E (acmod_process_cep E) (acmod_process_cep_logs E) false full_utt fuel st
        data 0 rv st' (by unfold int_wrap; omega) h
    obtain ⟨r1, r2, r3⟩ := h2.read
    refine ⟨tr, h1, r1, fun hn => (r2 hn).1, ?_⟩
    intro hn
    obtain ⟨pre, last, ht, hl, hneg, hpre, _⟩ := r3 hn
    exact ⟨pre, last, ht, hl, hneg, hpre⟩
  · intro μ drained hP hD hs ha
    obtain ⟨a, hsa⟩ := Option.ne_none_iff_exists'.1 hs
    obtain ⟨m, hma⟩ := Option.ne_none_iff_exists'.1 ha
    obtain ⟨hstep, hdrain, _, hcep⟩ := hP
    obtain ⟨f0, rv, st', h1⟩ :=
      process_loop_total E μ drained hstep hdrain (acmod_process_cep E) st.ps a hsa
        (acmod_process_cep_ok E st.ps m hma drained hcep) full_utt (data.length + 1) data st 0
        (by omega) rfl hD
    refine ⟨f0, rv, st', ?_⟩
    intro fuel hfuel
    simp [pocketsphinx_process_cep, h1 fuel hfuel]

/-- What `pocketsphinx_start_utt` returns on a context with an acoustic model: the
negative code of the reset, without a call to the search; else the value of the
start operation of the active search; else, with no active search, a fault. -/
theorem start_utt_outcome (st : State W) (uttid : Option String) (m : Nat)
    (ha : st.ps.acmod = some m) :
    ((E.acmod_start_utt st.world m).1 < 0 →
      ∃ st', pocketsphinx_start_utt E st uttid = .ret (E.acmod_start_utt st.world m).1 st' ∧
        st'.trace = st.trace ++
          [.ptmr_reset, .ptmr_start, .acmod_start_utt (E.acmod_start_utt st.world m).1]) ∧
    (¬ (E.acmod_start_utt st.world m).1 < 0 → ∀ a, st.ps.search = some a →
      ∃ st', pocketsphinx_start_utt E st uttid =
          .ret (E.search_start (E.acmod_start_utt st.world m).2 a).1 st' ∧
        st'.trace = st.trace ++
          [.ptmr_reset, .ptmr_start, .acmod_start_utt (E.acmod_start_utt st.world m).1,
           .ps_search_start a (E.search_start (E.acmod_start_utt st.world m).2 a).1]) ∧
    (¬ (E.acmod_start_utt st.world m).1 < 0 → st.ps.search = none →
      ∃ st', pocketsphinx_start_utt E st uttid = .fault st') := by
  refine ⟨?_, ?_, ?_⟩
  · intro h
    cases uttid <;>
      exact ⟨_, by simp [pocketsphinx_start_utt, acmod_start_utt, ha, h]; rfl, by simp⟩
  · intro h a hs
    cases uttid <;>
      exact ⟨_, by simp [pocketsphinx_start_utt, acmod_start_utt, ha, h, ps_search_start, hs]; rfl,
        by simp⟩
  · intro h hs
    cases uttid <;>
      exact ⟨_, by simp [pocketsphinx_start_utt, acmod_start_utt, ha, h, ps_search_start, hs]; rfl⟩

/-- Whenever the reinitialization requested by `update` fails after the word went
into the dictionary and no language-model set rejected it,
`pocketsphinx_add_word` returns 1. -/
theorem add_word_reinit_failure (st : State W) (word phones : String) (d a : Nat)
    (hd : st.ps.dict = some d) (hs : st.ps.search = some a)
    (hname : E.search_name (E.dict_add_word st.world d word phones).2 a ≠ "ngram")
    (hwid : (E.dict_add_word st.world d word phones).1 ≠ -1)
    (hre : (E.search_reinit (E.dict_add_word st.world d word phones).2 a).1 < 0) :
    (pocketsphinx_add_word E st word phones true).value = some 1 := by
  simp [pocketsphinx_add_word, dict_add_word, hd, hwid, pocketsphinx_get_lmset, hs,
    ps_search_name, hname, ps_search_reinit, hre, Res.value]

/-! ## Runs of the example world -/

theorem toy_cep_consumes (w : Toy) (m : Nat) (data : List (List Int)) (full : Bool)
    (hd : data ≠ []) :
    (toy.acmod_process_cep w m data full).2.1.length < data.length := by
  cases data with
  | nil => exact absurd rfl hd
  | cons x rest => simp [toy]

/-- The example collaborators make progress, with the pending frames as measure. -/
theorem toy_progress : Progress toy (fun w => w.pending) (fun _ => True) :=
  ⟨toy_step_decreases, fun _ _ _ => trivial,
    fun w m data full _ hd h => toy_raw_consumes w m data full hd h,
    fun w m data full _ hd _ => toy_cep_consumes w m data full hd⟩

theorem process_raw_from_rest_le (M : acmod_model) (full : Bool) :
    ∀ (xs : List Int) (a : acmod_t) (nfr : Nat),
      (Acmod.process_raw_from M full xs a nfr).2.1.length ≤ xs.length := by
  intro xs
  induction xs with
  | nil => intro a nfr; simp [Acmod.process_raw_from]
  | cons x xs ih =>
    intro a nfr
    simp only [Acmod.process_raw_from]
    split_ifs
    · simp
    · have := ih (Acmod.push M a x) (nfr + ((Acmod.push M a x).feat_buf.length - a.feat_buf.length))
      simp only [List.length_cons]
      omega

/-- The fixed-buffer collaborators make progress when the buffer holds at least one
frame: a search step that advances takes a frame out of the buffer, a search step
that reports no progress found the buffer empty, and on an empty buffer the
extraction takes at least the first sample or frame. -/
theorem buf_progress (M : acmod_model) (hcap : 0 < M.n_feat_alloc) :
    Progress (bufCollab M) (fun w => w.feat_buf.length) (fun w => w.feat_buf = []) := by
  refine ⟨?_, ?_, ?_, ?_⟩
  · intro w a h
    cases hb : w.feat_buf with
    | nil => simp [bufCollab, Acmod.score, hb] at h
    | cons f rest => simp [bufCollab, Acmod.score, hb]
  · intro w a h
    cases hb : w.feat_buf with
    | nil => simp [bufCollab, Acmod.score, hb]
    | cons f rest => simp [bufCollab, Acmod.score, hb] at h
  · intro w m data full hD hd _
    cases data with
    | nil => exact absurd rfl hd
    | cons x xs =>
      have hnot : ¬ M.n_feat_alloc ≤ 0 := by omega
      simp only [bufCollab, Acmod.process_raw, Acmod.process_raw_from, hD, List.length_nil,
        decide_eq_true_eq, hnot, decide_False, Bool.and_false, Bool.false_eq_true, if_false,
        List.length_cons]
      have := process_raw_from_rest_le M full xs (Acmod.push M w x)
        (0 + ((Acmod.push M w x).feat_buf.length - 0))
      simp only [hD, List.length_nil] at this ⊢
      omega
  · intro w m data full hD hd _
    cases data with
    | nil => exact absurd rfl hd
    | cons x xs =>
      have hnot : ¬ M.n_feat_alloc ≤ 0 := by omega
      simp [bufCollab, hD, hnot]

/-- C2 as stated fails: on the freshly built example context, with a search whose
two steps each report 2147483647 frames, no call returns a negative code and the
positive step values sum to 4294967294, yet `pocketsphinx_process_raw` returns -2,
what the 32-bit `int` counter holds. -/
theorem process_audio_sum_overflows :
    (pocketsphinx_process_raw toyBig 5 toyReady [1, 2] false false).value = some (-2) ∧
    ((pocketsphinx_process_raw toyBig 5 toyReady [1, 2] false false).stateD toyReady).trace =
      toyReady.trace ++ [.acmod_process_raw 2, .ps_search_step 10 2147483647,
        .ps_search_step 10 2147483647, .ps_search_step 10 0] ∧
    noNegative [.acmod_process_raw 2, .ps_search_step 10 2147483647,
        .ps_search_step 10 2147483647, .ps_search_step 10 0] ∧
    posStepSum [.acmod_process_raw 2, .ps_search_step 10 2147483647,
        .ps_search_step 10 2147483647, .ps_search_step 10 0] = 4294967294 := by
  refine ⟨by decide, by decide, ?_, by decide⟩
  intro c hc v hv
  simp only [List.mem_cons, List.mem_singleton, List.not_mem_nil, or_false] at hc
  rcases hc with rfl | rfl | rfl | rfl <;>
    (simp only [Call.code, Option.some.injEq] at hv; omega)

/-- C2, an instance: the freshly built context over the fixed-buffer acoustic
model, which makes progress, and five samples. The call returns 2, the number of
frames searched. -/
theorem process_audio_error_propagation_witness :
    Progress (bufCollab toyModel) (fun w => w.feat_buf.length) (fun w => w.feat_buf = []) ∧
    bufReady.world.feat_buf = [] ∧ bufReady.ps.search ≠ none ∧ bufReady.ps.acmod ≠ none ∧
    (∃ (f0 : Nat) (rv : Int) (st' : State acmod_t), ∀ fuel, f0 ≤ fuel →
      pocketsphinx_process_raw (bufCollab toyModel) fuel bufReady [1, 2, 3, 4, 5] false false =
        .ret rv st') ∧
    (pocketsphinx_process_raw (bufCollab toyModel) 10 bufReady [1, 2, 3, 4, 5] false false).value
      = some 2 :=
  ⟨buf_progress toyModel (by decide), by decide, by decide, by decide,
    (process_audio_error_propagation (bufCollab toyModel) bufReady [1, 2, 3, 4, 5] false).2
      (fun w => w.feat_buf.length) (fun w => w.feat_buf = []) (buf_progress toyModel (by decide))
      (by decide) (by decide) (by decide),
    by decide⟩

/-- C8, an instance: the example configuration sets `-hmm` and `-mean`. -/
theorem init_defaults_never_overrides_witness :
    ({ ps_calloc with config := some toyConfig } : pocketsphinx_t).config = some toyConfig ∧
    ∃ ps' c', pocketsphinx_init_defaults toy.file_exists
        { ps_calloc with config := some toyConfig } = some ps' ∧ ps'.config = some c' ∧
      (∀ p ∈ artifacts,
        (∀ v, cmd_ln_str_r toyConfig p.1 = some v → cmd_ln_str_r c' p.1 = some v) ∧
        (cmd_ln_str_r toyConfig p.1 = none → ∀ v, cmd_ln_str_r c' p.1 = some v ↔
          ∃ h, cmd_ln_str_r toyConfig "-hmm" = some h ∧
            toy.file_exists (h ++ "/" ++ p.2) = true ∧ v = h ++ "/" ++ p.2)) ∧
      (∀ name, name ∉ artifacts.map Prod.fst →
        cmd_ln_str_r c' name = cmd_ln_str_r toyConfig name) ∧
      (cmd_ln_str_r toyConfig "-hmm" = none →
        ps' = { ps_calloc with config := some toyConfig }) :=
  ⟨rfl, init_defaults_never_overrides toy.file_exists _ toyConfig rfl⟩

/-- C9, an instance: the freshly built example context, on which no utterance was
started. An empty buffer gives 0 and changes nothing; three samples are processed
and the call returns. -/
theorem process_audio_before_start_utt_witness :
    pocketsphinx_init toy Toy.fresh (some toyConfig) = .ret true toyReady ∧
    toyReady.ps.uttid = none ∧
    (∀ fuel, 1 ≤ fuel →
      pocketsphinx_process_raw toy fuel toyReady [] false false = .ret 0 toyReady) ∧
    (∃ (f0 : Nat) (rv : Int) (st' : State Toy), ∀ fuel, f0 ≤ fuel →
      pocketsphinx_process_raw toy fuel toyReady [1, 2, 3] false false = .ret rv st') ∧
    (∃ (f0 : Nat) (rv : Int) (st' : State Toy), ∀ fuel, f0 ≤ fuel →
      pocketsphinx_process_raw toy fuel toyReady [1, 2, 3] true false = .ret rv st') := by
  obtain ⟨h1, _, m, _, h2, _, _, _, h5, h6⟩ :=
    process_audio_before_start_utt toy Toy.fresh (some toyConfig) toyReady (by decide) false
  exact ⟨by decide, h1, h2,
    h5 (fun w => w.pending) (fun _ => True) toy_progress trivial (by decide) [1, 2, 3],
    h6 toy_raw_consumes [1, 2, 3]⟩

/-- C6, an instance: the example registry holds a language-model search. -/
theorem update_search_reuses_registered_witness :
    (∀ e ∈ toyReady.ps.searches, e ≠ none) ∧
    ∃ a0 st', some a0 ∈ toyReady.ps.searches ∧ toy.search_name toyReady.world a0 = "ngram" ∧
      pocketsphinx_update_lmset toy toyReady =
        .ret (if (toy.search_reinit toyReady.world a0).1 < 0 then none
              else toy.ngram_lmset (toy.search_reinit toyReady.world a0).2 a0) st' ∧
      st'.trace = toyReady.trace ++
        [.ps_search_reinit a0 (toy.search_reinit toyReady.world a0).1] ∧
      st'.world = (toy.search_reinit toyReady.world a0).2 ∧
      st'.ps = (if (toy.search_reinit toyReady.world a0).1 < 0 then toyReady.ps
                else { toyReady.ps with search := some a0 }) :=
  ⟨by decide, (update_search_reuses_registered toy toyReady (by decide)).1
    ⟨10, by decide, by decide⟩⟩

/-- C6 as stated fails in two ways. On the example context, whose registry holds
the language-model search at address 10, `pocketsphinx_update_lmset` returns the
language-model set of that search (110), not the search. And once a grammar search
could not be built, the registry is `[NULL, 10]`: it still holds the
language-model search, yet the lookup of `pocketsphinx_update_lmset` reads the
name of the NULL entry and faults. -/
theorem update_search_not_as_stated :
    (some 10 ∈ toyReady.ps.searches ∧ toy.search_name toyReady.world 10 = "ngram" ∧
      (pocketsphinx_update_lmset toy toyReady).value = some (some 110)) ∧
    (toyAfterFailedFsg.ps.searches = [none, some 10] ∧
      toy.search_name toyAfterFailedFsg.world 10 = "ngram" ∧
      pocketsphinx_update_lmset toy toyAfterFailedFsg = .fault toyAfterFailedFsg) := by
  decide

/-- C7 as stated fails at the largest counter value: `pocketsphinx_start_utt` with
no identifier names the utterance 4294967295 and the counter becomes 0, not
4294967296, so the next generated identifier, 000000000, is smaller. -/
theorem start_utt_counter_wraps :
    ((pocketsphinx_start_utt toy
        (toyReady.setPs { toyReady.ps with uttno := 4294967295 }) none).stateD toyReady).ps.uttid
      = some "4294967295" ∧
    ((pocketsphinx_start_utt toy
        (toyReady.setPs { toyReady.ps with uttno := 4294967295 }) none).stateD toyReady).ps.uttno
      = 0 ∧
    sprintf_09u 0 = "000000000" ∧
    decimalValue (sprintf_09u 0) < decimalValue (sprintf_09u 4294967295) := by
  decide

/-- C3 fails on the code. In the example world where the flush of the acoustic
model reports -1 while the drain and the finish operation succeed, an utterance of
three samples ends with `pocketsphinx_end_utt` returning 0: the value of
`acmod_end_utt` is in the trace and nowhere in the result. -/
theorem end_utt_drops_flush_error :
    (toySession { Toy.fresh with flush_rv := -1 } [1, 2, 3]).value = some 0 ∧
    Call.acmod_end_utt (-1) ∈
      ((toySession { Toy.fresh with flush_rv := -1 } [1, 2, 3]).stateD toyReady).trace := by
  decide

/-- C4 fails on the code. In the example world where the reinit operation of the
search reports -1, `pocketsphinx_add_word` with `update` set adds the word to the
dictionary and to the language-model set, calls reinit, and returns 1. -/
theorem add_word_reinit_failure_returns_one :
    (pocketsphinx_add_word toy (toyInit { Toy.fresh with reinit_rv := -1 } toyConfig)
      "hello" "HH AH L OW" true).value = some 1 ∧
    Call.ps_search_reinit 10 (-1) ∈
      ((pocketsphinx_add_word toy (toyInit { Toy.fresh with reinit_rv := -1 } toyConfig)
        "hello" "HH AH L OW" true).stateD toyReady).trace := by
  decide

/-- C5 fails on the code. A context built from a configuration that names neither
a grammar nor a language model has no active search; on it `pocketsphinx_start_utt`
resets the acoustic model, which succeeds, and then dispatches the start operation
on the NULL search: a fault, not an error code. -/
theorem start_utt_without_search_faults :
    (toyInit Toy.fresh toyConfigBare).ps.search = none ∧
    (toyInit Toy.fresh toyConfigBare).ps.acmod = some 1 ∧
    (pocketsphinx_start_utt toy (toyInit Toy.fresh toyConfigBare) none).value = none ∧
    ∃ st', pocketsphinx_start_utt toy (toyInit Toy.fresh toyConfigBare) none = .fault st' ∧
      st'.trace = (toyInit Toy.fresh toyConfigBare).trace ++
        [.ptmr_reset, .ptmr_start, .acmod_start_utt 0] :=
  ⟨by decide, by decide, by decide, _, rfl, by decide⟩

/-- C10 fails on the code. One utterance of three samples in the example world:
three frames are searched during `pocketsphinx_process_raw` and a fourth during the
drain of `pocketsphinx_end_utt`. The utterance frame count is 4, the cumulative
frame count `ps->n_frame` is 3. -/
theorem all_time_misses_end_utt_frames :
    (toySession Toy.fresh [1, 2, 3]).value = some 0 ∧
    pocketsphinx_get_utt_time toy ((toySession Toy.fresh [1, 2, 3]).stateD toyReady) = some 4 ∧
    pocketsphinx_get_all_time ((toySession Toy.fresh [1, 2, 3]).stateD toyReady) = 3 ∧
    ((toySession Toy.fresh [1, 2, 3]).stateD toyReady).trace.drop 16 =
      [.acmod_end_utt 0, .ps_search_step 10 1, .ps_search_step 10 0,
       .ps_search_finish 10 0, .ptmr_stop] := by
  decide


/-! ## Streaming equivalence of acoustic scoring -/

@[simp]
theorem Run.bind_done {α β : Type} (a : α) (f : α → Run β) : (Run.done a).bind f = f a := rfl

theorem cut_append (M : acmod_model) :
    ∀ (xs ys p : List Int),
      Acmod.cut M p (xs ++ ys) =
        ((Acmod.cut M p xs).1 ++ (Acmod.cut M (Acmod.cut M p xs).2 ys).1,
          (Acmod.cut M (Acmod.cut M p xs).2 ys).2) := by
  intro xs
  induction xs with
  | nil => intro ys p; simp [Acmod.cut]
  | cons x xs ih =>
    intro ys p
    by_cases h : (p ++ [x]).length = M.frame_len
    · simp only [List.cons_append, Acmod.cut, h, if_true, List.append_eq]
      rw [ih ys []]
    · simp only [List.cons_append, Acmod.cut, h, if_false, List.append_eq]
      exact ih ys (p ++ [x])

theorem cut_length_le (M : acmod_model) :
    ∀ (xs p : List Int), (Acmod.cut M p xs).1.length ≤ xs.length := by
  intro xs
  induction xs with
  | nil => intro p; simp [Acmod.cut]
  | cons x xs ih =>
    intro p
    by_cases h : (p ++ [x]).length = M.frame_len
    · simp only [Acmod.cut, h, if_true, List.length_cons]
      have := ih []
      omega
    · simp only [Acmod.cut, h, if_false, List.length_cons]
      have := ih (p ++ [x])
      omega

theorem labelled_append (M : acmod_model) :
    ∀ (f1 f2 : List (List Int)) (k : Nat),
      labelled M k (f1 ++ f2) = labelled M k f1 ++ labelled M (k + f1.length) f2 := by
  intro f1
  induction f1 with
  | nil => intro f2 k; simp [labelled]
  | cons f f1 ih =>
    intro f2 k
    simp only [List.cons_append, labelled, List.length_cons, List.cons.injEq, true_and,
      List.append_eq]
    rw [ih, show k + (f1.length + 1) = k + 1 + f1.length by omega]

theorem labelled_fst (M : acmod_model) :
    ∀ (fs : List (List Int)) (k : Nat),
      (labelled M k fs).map Prod.fst = List.range' k fs.length := by
  intro fs
  induction fs with
  | nil => intro k; rfl
  | cons f fs ih =>
    intro k
    simp only [labelled, List.map_cons, ih, List.length_cons, List.range'_succ]

/-- What one extraction call does: it takes a first part of the samples, cuts it
into frames behind the pending samples, and stops early only on a full buffer
that may not grow. -/
theorem process_raw_from_spec (M : acmod_model) (full : Bool) :
    ∀ (xs : List Int) (a : acmod_t) (nfr : Nat),
      ∃ consumed rest, xs = consumed ++ rest ∧
        Acmod.process_raw_from M full xs a nfr =
          (((nfr + (Acmod.cut M a.pending consumed).1.length : Nat) : Int), rest,
            { a with pending := (Acmod.cut M a.pending consumed).2,
                     feat_buf := a.feat_buf ++ (Acmod.cut M a.pending consumed).1 }) ∧
        (rest ≠ [] → (full || a.grow) = false ∧
          M.n_feat_alloc ≤ (a.feat_buf ++ (Acmod.cut M a.pending consumed).1).length) := by
  intro xs
  induction xs with
  | nil =>
    intro a nfr
    exact ⟨[], [], rfl, by simp [Acmod.process_raw_from, Acmod.cut], fun h => absurd rfl h⟩
  | cons x xs ih =>
    intro a nfr
    by_cases hstop : (!(full || a.grow) && decide (M.n_feat_alloc ≤ a.feat_buf.length)) = true
    · refine ⟨[], x :: xs, rfl, ?_, fun _ => ?_⟩
      · rw [Acmod.process_raw_from, if_pos hstop]
        simp [Acmod.cut]
      · simp only [Bool.and_eq_true, Bool.not_eq_true', decide_eq_true_eq] at hstop
        simpa [Acmod.cut] using hstop
    · obtain ⟨consumed, rest, h1, h2, h3⟩ :=
        ih (Acmod.push M a x) (nfr + ((Acmod.push M a x).feat_buf.length - a.feat_buf.length))
      refine ⟨x :: consumed, rest, by rw [h1]; rfl, ?_, ?_⟩
      · rw [Acmod.process_raw_from, if_neg hstop, h2]
        by_cases hl : (a.pending ++ [x]).length = M.frame_len
        · simp only [Acmod.push, hl, if_true, Acmod.cut, List.length_append,
            List.length_singleton, List.length_cons, Prod.mk.injEq, true_and]
          refine ⟨?_, by simp⟩
          simp only [List.length_nil]
          push_cast
          omega
        · simp only [Acmod.push, hl, if_false, Acmod.cut, Prod.mk.injEq, true_and]
          refine ⟨?_, by simp⟩
          push_cast
          omega
      · intro hr
        obtain ⟨h4, h5⟩ := h3 hr
        by_cases hl : (a.pending ++ [x]).length = M.frame_len
        · simp only [Acmod.push, hl, if_true] at h4 h5
          refine ⟨h4, ?_⟩
          simp only [Acmod.cut, hl, if_true]
          simpa using h5
        · simp only [Acmod.push, hl, if_false] at h4 h5
          refine ⟨h4, ?_⟩
          simp only [Acmod.cut, hl, if_false]
          exact h5

/-- The scoring loop empties the feature buffer, with every index check passing. -/
theorem score_loop_spec (M : acmod_model) :
    ∀ (fs : List (List Int)) (t : TestState) (fuel : Nat),
      t.acmod.feat_buf = fs → t.frame_counter = t.acmod.output_frame → fs.length + 1 ≤ fuel →
      score_loop M fuel t = .done
        { acmod := { t.acmod with feat_buf := [],
                                  output_frame := t.acmod.output_frame + fs.length },
          frame_counter := t.frame_counter + fs.length,
          seen := t.seen ++ labelled M t.frame_counter fs } := by
  intro fs
  induction fs with
  | nil =>
    intro t fuel hb hc hf
    obtain ⟨f, rfl⟩ : ∃ f, fuel = f + 1 := ⟨fuel - 1, by omega⟩
    obtain ⟨a, c, s⟩ := t
    obtain ⟨g, p, b, o⟩ := a
    simp only at hb hc
    subst hb
    simp [score_loop, Acmod.score, labelled]
  | cons f0 fs ih =>
    intro t fuel hb hc hf
    obtain ⟨f, rfl⟩ : ∃ f, fuel = f + 1 := ⟨fuel - 1, by omega⟩
    obtain ⟨a, c, s⟩ := t
    obtain ⟨g, p, b, o⟩ := a
    simp only at hb hc
    subst hb hc
    simp only [List.length_cons] at hf
    simp only [score_loop, Acmod.score, ne_eq, not_true_eq_false, if_false]
    rw [ih _ f rfl rfl (by omega)]
    simp [labelled, Nat.add_assoc, Nat.add_comm 1]

/-- The chunk loop takes the whole chunk, scores every frame it completes, and
leaves the feature buffer empty. -/
theorem chunk_loop_spec (M : acmod_model) (hcap : 0 < M.n_feat_alloc) :
    ∀ (n : Nat) (data : List Int) (t : TestState) (fuel : Nat),
      data.length < n → t.acmod.feat_buf = [] → t.frame_counter = t.acmod.output_frame →
      data.length + 2 ≤ fuel →
      chunk_loop M fuel t data = .done
        { acmod := { t.acmod with
            pending := (Acmod.cut M t.acmod.pending data).2,
            feat_buf := [],
            output_frame := t.acmod.output_frame + (Acmod.cut M t.acmod.pending data).1.length },
          frame_counter := t.frame_counter + (Acmod.cut M t.acmod.pending data).1.length,
          seen := t.seen ++ labelled M t.frame_counter (Acmod.cut M t.acmod.pending data).1 } := by
  intro n
  induction n with
  | zero => intro data t fuel h; omega
  | succ n ih =>
    intro data t fuel hlen hb hc hf
    obtain ⟨f, rfl⟩ : ∃ f, fuel = f + 1 := ⟨fuel - 1, by omega⟩
    obtain ⟨a, c, sn⟩ := t
    obtain ⟨g, p, b, o⟩ := a
    simp only at hb hc
    subst hb hc
    obtain ⟨consumed, rest, h1, h2, h3⟩ :=
      process_raw_from_spec M false data ⟨g, p, [], c⟩ 0
    simp only [List.nil_append, Nat.zero_add, Bool.false_or] at h2 h3
    have hle := cut_length_le M consumed p
    by_cases hz : (Acmod.cut M p consumed).1.length = 0
    · have hnil : (Acmod.cut M p consumed).1 = [] := List.length_eq_zero.1 hz
      have hrest : rest = [] := by
        by_contra hne
        have := (h3 hne).2
        omega
      subst hrest
      rw [List.append_nil] at h1
      subst h1
      simp only [chunk_loop, Acmod.process_raw, h2, hz, Nat.cast_zero, gt_iff_lt, lt_self_iff_false,
        if_false, hnil, labelled, List.append_nil, Nat.add_zero, List.length_nil]
    · have hpos : (0 : Int) < ((Acmod.cut M p consumed).1.length : Nat) := by
        have : 0 < (Acmod.cut M p consumed).1.length := Nat.pos_of_ne_zero hz
        exact_mod_cast this
      have hcons : consumed ≠ [] := by
        intro e; rw [e] at hz; simp [Acmod.cut] at hz
      have hcl : 0 < consumed.length := List.length_pos.2 hcons
      have hdl : data.length = consumed.length + rest.length := by rw [h1]; simp
      simp only [chunk_loop, Acmod.process_raw, h2, gt_iff_lt, hpos, if_true]
      rw [score_loop_spec M (Acmod.cut M p consumed).1 _ f rfl rfl (by omega)]
      simp only [Run.bind_done]
      rw [ih rest _ f (by omega) rfl rfl (by omega)]
      simp only [h1, cut_append, labelled_append, List.length_append, List.append_assoc,
        Nat.add_assoc]
  
/-- The read loop leaves the frames of everything read so far scored, and the
samples of the incomplete frame pending. -/
theorem read_loop_spec (M : acmod_model) (hcap : 0 < M.n_feat_alloc) :
    ∀ (chunks : List (List Int)) (t : TestState) (fuel : Nat),
      t.acmod.feat_buf = [] → t.frame_counter = t.acmod.output_frame →
      chunks.flatten.length + 2 ≤ fuel →
      read_loop M fuel t chunks = .done
        { acmod := { t.acmod with
            pending := (Acmod.cut M t.acmod.pending chunks.flatten).2,
            feat_buf := [],
            output_frame :=
              t.acmod.output_frame + (Acmod.cut M t.acmod.pending chunks.flatten).1.length },
          frame_counter := t.frame_counter + (Acmod.cut M t.acmod.pending chunks.flatten).1.length,
          seen := t.seen ++
            labelled M t.frame_counter (Acmod.cut M t.acmod.pending chunks.flatten).1 } := by
  intro chunks
  induction chunks with
  | nil =>
    intro t fuel hb hc _
    obtain ⟨a, c, sn⟩ := t
    obtain ⟨g, p, b, o⟩ := a
    simp only at hb hc
    subst hb hc
    simp [read_loop, Acmod.cut, labelled]
  | cons chunk rest ih =>
    intro t fuel hb hc hf
    obtain ⟨a, c, sn⟩ := t
    obtain ⟨g, p, b, o⟩ := a
    simp only at hb hc
    subst hb hc
    simp only [List.flatten_cons, List.length_append] at hf
    simp only [read_loop]
    rw [chunk_loop_spec M hcap (chunk.length + 1) chunk _ fuel (by omega) rfl rfl (by omega)]
    simp only [Run.bind_done]
    rw [ih _ fuel rfl rfl (by omega)]
    simp only [List.flatten_cons, cut_append, labelled_append, List.length_append,
      List.append_assoc, Nat.add_assoc]

/-- C1. Streaming equivalence on the acoustic model modelled from the spec, whose
feature buffer holds at least one frame. For every buffer and every split of it
into consecutive chunks, the chunked run and the whole-utterance run of the
driver of `test_acmod.c` both finish, with every `TEST_EQUAL(frame_counter,
frame_idx)` satisfied, and see the same (frame index, best senone) pairs: those of
the frames cut from the buffer, numbered 0, 1, 2, ... -/
theorem streaming_equivalence (M : acmod_model) (hcap : 0 < M.n_feat_alloc) (a : acmod_t)
    (chunks : List (List Int)) (fuel : Nat) (hfuel : chunks.flatten.length + 2 ≤ fuel) :
    run_chunked M fuel a chunks = .done (labelled M 0 (Acmod.cut M [] chunks.flatten).1) ∧
    run_whole M fuel a chunks.flatten = .done (labelled M 0 (Acmod.cut M [] chunks.flatten).1) ∧
    (labelled M 0 (Acmod.cut M [] chunks.flatten).1).map Prod.fst =
      List.range (labelled M 0 (Acmod.cut M [] chunks.flatten).1).length := by
  have hlen := cut_length_le M chunks.flatten []
  refine ⟨?_, ?_, ?_⟩
  · unfold run_chunked
    simp only
    rw [read_loop_spec M hcap chunks _ fuel rfl rfl hfuel]
    simp only [Run.bind_done, Acmod.start_utt, Acmod.end_utt]
    rw [chunk_loop_spec M hcap 1 [] _ fuel (by simp) rfl rfl (by simp; omega)]
    simp [Acmod.cut, labelled]
  · unfold run_whole
    obtain ⟨consumed, rest, h1, h2, h3⟩ :=
      process_raw_from_spec M true chunks.flatten (Acmod.start_utt a).2 0
    have hrest : rest = [] := by
      by_contra hne
      have := (h3 hne).1
      simp at this
    subst hrest
    rw [List.append_nil] at h1
    subst h1
    simp only [Acmod.start_utt, List.nil_append, Nat.zero_add] at h2
    simp only [Acmod.process_raw, Acmod.start_utt, h2, Acmod.end_utt]
    rw [score_loop_spec M (Acmod.cut M [] chunks.flatten).1 _ fuel rfl rfl (by omega)]
    simp
  · rw [labelled_fst, List.range_eq_range']
    congr 1
    rw [← List.length_map (labelled M 0 (Acmod.cut M [] chunks.flatten).1) Prod.fst, labelled_fst]
    simp

/-- C1, an instance: frames of two samples, a one-frame buffer, four chunks. -/
theorem streaming_equivalence_witness :
    0 < toyModel.n_feat_alloc ∧
    [[1, 2, 3], [4, 5, 6, 7, 8], [9], [10, 11]].flatten.length + 2 ≤ 20 ∧
    run_chunked toyModel 20 toyAcmod [[1, 2, 3], [4, 5, 6, 7, 8], [9], [10, 11]] =
      .done (labelled toyModel 0
        (Acmod.cut toyModel [] [[1, 2, 3], [4, 5, 6, 7, 8], [9], [10, 11]].flatten).1) ∧
    run_whole toyModel 20 toyAcmod [[1, 2, 3], [4, 5, 6, 7, 8], [9], [10, 11]].flatten =
      .done (labelled toyModel 0
        (Acmod.cut toyModel [] [[1, 2, 3], [4, 5, 6, 7, 8], [9], [10, 11]].flatten).1) ∧
    (labelled toyModel 0
        (Acmod.cut toyModel [] [[1, 2, 3], [4, 5, 6, 7, 8], [9], [10, 11]].flatten).1).map Prod.fst =
      List.range (labelled toyModel 0
        (Acmod.cut toyModel [] [[1, 2, 3], [4, 5, 6, 7, 8], [9], [10, 11]].flatten).1).length :=
  ⟨by decide, by decide,
    streaming_equivalence toyModel (by decide) toyAcmod
      [[1, 2, 3], [4, 5, 6, 7, 8], [9], [10, 11]] 20 (by decide)⟩

/-! ## Registry invariant -/

/-- `pocketsphinx_update_lmset` tests the search it builds for NULL before it
inserts it: a registry of valid searches stays one. -/
theorem update_lmset_keeps_valid (st : State W) (hv : ∀ e ∈ st.ps.searches, e ≠ none)
    (r : Option Nat) (st' : State W) (h : pocketsphinx_update_lmset E st = .ret r st') :
    ∀ e ∈ st'.ps.searches, e ≠ none := by
  unfold pocketsphinx_update_lmset at h
  cases hf : find_search E st "ngram" st.ps.searches with
  | null_entry => simp [hf] at h
  | absent =>
    simp only [hf] at h
    cases hi : (E.ngram_search_init st.world st.ps.config st.ps.acmod st.ps.dict).1 with
    | none =>
      simp only [hi, Res.ret.injEq] at h
      rw [← h.2]
      exact hv
    | some ngs =>
      simp only [hi, Res.ret.injEq] at h
      rw [← h.2]
      intro e he
      simp only [State.setPs_ps, State.log_ps, State.setWorld_ps, List.mem_cons] at he
      rcases he with rfl | he
      · simp
      · exact hv e he
  | found ngs =>
    simp only [hf, ps_search_reinit, Res.bind_ret] at h
    split_ifs at h <;>
      (simp only [Res.ret.injEq] at h; rw [← h.2]; exact hv)

/-- C11 fails on the code. The example context is built from a configuration with
a language model, in a world where no grammar search can be built; it holds the
language-model search 10. `pocketsphinx_update_fsgset` then returns NULL, and the
state it leaves, reachable by that one call, has the registry `[NULL, 10]`: an
entry that is no search. A context constructed from a configuration that names
a grammar, in the same world, is returned with the registry `[NULL]`. -/
theorem registry_gets_null_entry :
    pocketsphinx_init toy { Toy.fresh with fsg_ok := false } (some toyConfig) =
      .ret true (toyInit { Toy.fresh with fsg_ok := false } toyConfig) ∧
    registry_invariant toy (toyInit { Toy.fresh with fsg_ok := false } toyConfig) ∧
    pocketsphinx_update_fsgset toy (toyInit { Toy.fresh with fsg_ok := false } toyConfig) =
      .ret none toyAfterFailedFsg ∧
    Reachable toy toyAfterFailedFsg ∧
    toyAfterFailedFsg.ps.searches = [none, some 10] ∧
    ¬ registry_invariant toy toyAfterFailedFsg ∧
    pocketsphinx_init toy { Toy.fresh with fsg_ok := false } (some toyConfigFsg) =
      .ret true (toyInit { Toy.fresh with fsg_ok := false } toyConfigFsg) ∧
    (toyInit { Toy.fresh with fsg_ok := false } toyConfigFsg).ps.searches = [none] ∧
    ¬ registry_invariant toy (toyInit { Toy.fresh with fsg_ok := false } toyConfigFsg) := by
  refine ⟨by decide, ⟨by decide, by decide, by decide⟩, by decide, ?_, by decide, ?_, by decide,
    by decide, ?_⟩
  · exact Reachable.call (toyInit { Toy.fresh with fsg_ok := false } toyConfig) .update_fsgset
      toyAfterFailedFsg
      (Reachable.construct { Toy.fresh with fsg_ok := false } (some toyConfig)
        (toyInit { Toy.fresh with fsg_ok := false } toyConfig) (by decide))
      (by decide)
  · intro h
    exact h.1 none (by decide) rfl
  · intro h
    exact h.1 none (by decide) rfl

end properties

end PocketSphinx
